import Mathlib

/-!
Shallow embedding of the optimization subsystem of the CapCutAPI-Complete
repository: `optimized_modules/resource_scheduler.py`,
`optimized_modules/cache_optimizer.py` and
`optimized_modules/intelligent_cache.py`.

Modelling conventions: Python floats are modelled as rationals, Python dicts as
insertion-ordered association lists with unique keys, and every operation that
reads `time.time()` in the source takes the current time as an explicit
argument.  Values that the source treats opaquely (pickled objects) are
modelled as `String` payloads, with the serialized size supplied by an
explicit size function where the source calls `pickle.dumps`.
-/

namespace CapCut

/-- Priority enum from `resource_scheduler.py` (`CRITICAL = 1` … `BACKGROUND = 5`). -/
inductive Priority where
  | CRITICAL
  | HIGH
  | NORMAL
  | LOW
  | BACKGROUND
deriving DecidableEq

/-- Numeric value of each priority, as in the Python `Priority` enum. -/
def Priority.value : Priority → ℕ
  | .CRITICAL => 1
  | .HIGH => 2
  | .NORMAL => 3
  | .LOW => 4
  | .BACKGROUND => 5

/-- `ResourceRequirement` dataclass (floats as rationals, MB counts as integers). -/
structure ResourceRequirement where
  cpu_cores : ℚ := 1/10
  memory_mb : ℤ := 100
  disk_mb : ℤ := 50
  gpu_memory_mb : ℤ := 0
  network_bandwidth : ℚ := 1
deriving DecidableEq

/-- `Task` dataclass.  The `created_at`, `estimated_duration`, `callback` and
`metadata` fields are omitted: no modelled operation reads them (`callback` is
an effectful Python callable and `__lt__` compares priorities only). -/
structure Task where
  task_id : String
  task_type : String := ""
  priority : Priority
  resource_requirement : ResourceRequirement := {}
  dependencies : List String := []
deriving DecidableEq

/-- `Task.__lt__`: comparison is on the priority value only. -/
def Task.lt (a b : Task) : Bool := a.priority.value < b.priority.value

/-- Placeholder task used for out-of-range array reads, which never occur on
the in-range accesses performed by the heap routines below. -/
def dummyTask : Task := { task_id := "", priority := .NORMAL }

/-- Loop body of Python `heapq._siftdown`, with the number of remaining
iterations as fuel (the parent index strictly decreases, so `heap.size` fuel
always suffices). -/
def siftdownLoop (heap : Array Task) (startpos : ℕ) (newitem : Task) (pos : ℕ) :
    ℕ → Array Task × ℕ
  | 0 => (heap, pos)
  | fuel + 1 =>
    if startpos < pos then
      let parentpos := (pos - 1) / 2
      let parent := heap.getD parentpos dummyTask
      if Task.lt newitem parent then
        siftdownLoop (heap.setD pos parent) startpos newitem parentpos fuel
      else (heap, pos)
    else (heap, pos)

/-- Python `heapq._siftdown`. -/
def siftdown (heap : Array Task) (startpos pos : ℕ) : Array Task :=
  let newitem := heap.getD pos dummyTask
  let r := siftdownLoop heap startpos newitem pos heap.size
  r.1.setD r.2 newitem

/-- Loop body of Python `heapq._siftup` (the child index strictly increases,
so `heap.size` fuel always suffices). -/
def siftupLoop (heap : Array Task) (pos : ℕ) : ℕ → Array Task × ℕ
  | 0 => (heap, pos)
  | fuel + 1 =>
    let endpos := heap.size
    let childpos := 2 * pos + 1
    if childpos < endpos then
      let rightpos := childpos + 1
      let childpos :=
        if rightpos < endpos ∧
            ¬ Task.lt (heap.getD childpos dummyTask) (heap.getD rightpos dummyTask) = true
        then rightpos else childpos
      siftupLoop (heap.setD pos (heap.getD childpos dummyTask)) childpos fuel
    else (heap, pos)

/-- Python `heapq._siftup`. -/
def siftup (heap : Array Task) (pos : ℕ) : Array Task :=
  let newitem := heap.getD pos dummyTask
  let r := siftupLoop heap pos heap.size
  siftdown (r.1.setD r.2 newitem) pos r.2

/-- Python `heapq.heapify`: `for i in reversed(range(n // 2)): _siftup(x, i)`. -/
def heapifyAux (heap : Array Task) : ℕ → Array Task
  | 0 => heap
  | i + 1 => heapifyAux (siftup heap i) i

/-- Python `heapq.heapify` on an array. -/
def heapifyArr (heap : Array Task) : Array Task := heapifyAux heap (heap.size / 2)

/-- Python `heapq.heapify` on a list. -/
def heapifyList (l : List Task) : List Task := (heapifyArr ⟨l⟩).toList

/-- Python `heapq.heappop` on a list; returns `none` on an empty heap (where
the source would raise `IndexError`, but every call site guards non-emptiness
or treats the tier as skipped). -/
def heappopList (l : List Task) : Option Task × List Task :=
  match l.getLast? with
  | none => (none, l)
  | some lastelt =>
    let heap : Array Task := ⟨l.dropLast⟩
    if heap.size = 0 then (some lastelt, [])
    else
      let returnitem := heap.getD 0 dummyTask
      (some returnitem, (siftup (heap.setD 0 lastelt) 0).toList)

/-- `TaskQueue`: per-priority heaps, a task map and the completed-id set.
`completed_tasks` is a `Dict[str, bool]` in the source whose values are always
`True`; only the key set is observable, modelled as a duplicate-free list. -/
structure TaskQueue where
  queues : Priority → List Task
  task_map : List (String × Task)
  completed_tasks : List String

/-- Fresh `TaskQueue()`. -/
def TaskQueue.init : TaskQueue :=
  { queues := fun _ => [], task_map := [], completed_tasks := [] }

/-- `TaskQueue.add_task`: reject a duplicate id, otherwise append to the
priority tier and re-heapify it. -/
def TaskQueue.add_task (q : TaskQueue) (t : Task) : Bool × TaskQueue :=
  if (q.task_map.lookup t.task_id).isSome then (false, q)
  else
    (true,
      { q with
          queues := fun p =>
            if p = t.priority then heapifyList (q.queues t.priority ++ [t]) else q.queues p,
          task_map := q.task_map ++ [(t.task_id, t)] })

/-- The tier scan order of `TaskQueue.get_next_task`. -/
def priorityScanOrder : List Priority :=
  [.CRITICAL, .HIGH, .NORMAL, .LOW, .BACKGROUND]

/-- Body of `TaskQueue.get_next_task`: scan the given tiers in order; in a
non-empty tier pop the heap top, return it if all its dependencies are
completed, otherwise push it back (append + heapify) and move on. -/
def TaskQueue.get_next_go (q : TaskQueue) : List Priority → Option Task × TaskQueue
  | [] => (none, q)
  | p :: rest =>
    match heappopList (q.queues p) with
    | (none, _) => TaskQueue.get_next_go q rest
    | (some t, l) =>
      if t.dependencies.all (fun d => q.completed_tasks.contains d) then
        (some t, { q with queues := fun p2 => if p2 = p then l else q.queues p2 })
      else
        TaskQueue.get_next_go
          { q with queues := fun p2 => if p2 = p then heapifyList (l ++ [t]) else q.queues p2 }
          rest

/-- `TaskQueue.get_next_task`. -/
def TaskQueue.get_next_task (q : TaskQueue) : Option Task × TaskQueue :=
  TaskQueue.get_next_go q priorityScanOrder

/-- `TaskQueue.mark_completed`: record the id as completed and drop it from
the task map. -/
def TaskQueue.mark_completed (q : TaskQueue) (tid : String) : TaskQueue :=
  { q with
      completed_tasks :=
        if q.completed_tasks.contains tid then q.completed_tasks
        else q.completed_tasks ++ [tid],
      task_map := q.task_map.filter (fun kv => kv.1 != tid) }

/-- `ResourceScheduler` state: the concurrency cap, the queue and the map of
active (dispatched, not yet completed) tasks. -/
structure ResourceScheduler where
  max_concurrent_tasks : ℕ
  task_queue : TaskQueue
  active_tasks : List (String × Task)

/-- `ResourceScheduler(max_concurrent_tasks=n)` with empty queue. -/
def ResourceScheduler.init (maxConc : ℕ) : ResourceScheduler :=
  { max_concurrent_tasks := maxConc, task_queue := TaskQueue.init, active_tasks := [] }

/-- `ResourceScheduler.can_execute_task`: active count below the cap and the
monitor-reported available resources componentwise at least the requirement.
The available snapshot comes from `psutil` in the source and is passed in
explicitly here. -/
def ResourceScheduler.can_execute_task (s : ResourceScheduler)
    (available : ResourceRequirement) (t : Task) : Bool :=
  if s.active_tasks.length ≥ s.max_concurrent_tasks then false
  else
    decide (t.resource_requirement.cpu_cores ≤ available.cpu_cores) &&
    decide (t.resource_requirement.memory_mb ≤ available.memory_mb) &&
    decide (t.resource_requirement.disk_mb ≤ available.disk_mb)

/-- One iteration of `ResourceScheduler._scheduling_loop`: pop the next ready
task and, if admissible, dispatch it (add it to `active_tasks`; the source
then hands it to the worker pool).  A popped task that fails the admission
check is dropped, exactly as in the source, which neither re-enqueues nor
dispatches it. -/
def ResourceScheduler.scheduling_tick (s : ResourceScheduler)
    (available : ResourceRequirement) : Option Task × ResourceScheduler :=
  let r := s.task_queue.get_next_task
  let s1 : ResourceScheduler := { s with task_queue := r.2 }
  match r.1 with
  | none => (none, s1)
  | some t =>
    if s1.can_execute_task available t then
      (some t, { s1 with active_tasks := s1.active_tasks ++ [(t.task_id, t)] })
    else (none, s1)

/-- `ResourceScheduler.submit_task` (a duplicate id raises in the source and
leaves the state unchanged, which is what the `add_task` failure branch does). -/
def ResourceScheduler.submit_task (s : ResourceScheduler) (t : Task) : ResourceScheduler :=
  { s with task_queue := (s.task_queue.add_task t).2 }

/-- The `finally` block of `_execute_task.run_task`: remove the task from the
active set and mark it completed, whether or not its callback raised. -/
def ResourceScheduler.complete_task (s : ResourceScheduler) (tid : String) : ResourceScheduler :=
  { s with
      active_tasks := s.active_tasks.filter (fun kv => kv.1 != tid),
      task_queue := s.task_queue.mark_completed tid }

/-- `ResourceScheduler.adjust_concurrency`: clamp the new cap to `[1, 50]`
(the executor resize has no further observable effect on this state). -/
def ResourceScheduler.adjust_concurrency (s : ResourceScheduler) (new_max : ℤ) :
    ResourceScheduler :=
  { s with max_concurrent_tasks := (max 1 (min new_max 50)).toNat }

/-- The scheduler operations an external trace can interleave: submissions,
scheduling-loop ticks (with the monitor's available-resource snapshot),
task completions and concurrency adjustments. -/
inductive SchedOp where
  | submit (t : Task)
  | tick (available : ResourceRequirement)
  | complete (tid : String)
  | adjust (new_max : ℤ)

/-- Whether an operation is an `adjust_concurrency` call. -/
def SchedOp.isAdjust : SchedOp → Bool
  | .adjust _ => true
  | _ => false

/-- Apply one scheduler operation. -/
def ResourceScheduler.step (s : ResourceScheduler) : SchedOp → ResourceScheduler
  | .submit t => s.submit_task t
  | .tick available => (s.scheduling_tick available).2
  | .complete tid => s.complete_task tid
  | .adjust n => s.adjust_concurrency n

/-- Run a sequence of scheduler operations. -/
def ResourceScheduler.run (s : ResourceScheduler) (ops : List SchedOp) : ResourceScheduler :=
  ops.foldl ResourceScheduler.step s

/-- The multiplicative scale factor of `AutoScaler._evaluate_scaling`, with
the default `scaling_rules` thresholds (`cpu 70/20`, `memory 75*1000/25*1000`,
`queue 10`) and factors (`1.5` up, `0.8` down). -/
def auto_scale_factor (cpu_percent memory_mb : ℚ) (queue_size : ℕ) : ℚ :=
  let f : ℚ := 1
  let f := if cpu_percent > 70 then f * (3/2) else if cpu_percent < 20 then f * (4/5) else f
  let f :=
    if memory_mb > 75 * 1000 then f * (3/2)
    else if memory_mb < 25 * 1000 then f * (4/5) else f
  if queue_size > 10 then f * (3/2) else f

/-- The candidate cap of `AutoScaler._evaluate_scaling`:
`max(min_concurrent, min(int(current * factor), max_concurrent))` with the
default bounds `[2, 50]`; Python `int()` on a non-negative float is `⌊·⌋`.
The queue size is `get_queue_stats()['total'] = len(task_map)`. -/
def auto_scale_new_max (s : ResourceScheduler) (cpu_percent memory_mb : ℚ) : ℤ :=
  max 2 (min
    (Int.floor ((s.max_concurrent_tasks : ℚ) *
      auto_scale_factor cpu_percent memory_mb s.task_queue.task_map.length))
    50)

/-- `AutoScaler._evaluate_scaling`: compute the candidate cap and call
`adjust_concurrency` only when it differs from the current cap.  The boolean
reports whether the adjustment was applied. -/
def evaluate_scaling (s : ResourceScheduler) (cpu_percent memory_mb : ℚ) :
    ResourceScheduler × Bool :=
  let new_max := auto_scale_new_max s cpu_percent memory_mb
  if new_max ≠ (s.max_concurrent_tasks : ℤ) then (s.adjust_concurrency new_max, true)
  else (s, false)

/-- `CacheEntry` dataclass of `cache_optimizer.py`; values are modelled as
`String` payloads, so `__post_init__` computes `size = len(value)` (the `str`
branch of the source). -/
structure CacheEntry where
  key : String
  value : String
  created_at : ℚ
  last_accessed : ℚ
  access_count : ℕ := 1
  size : ℕ := 0
  ttl : ℚ := 300
  priority : ℚ := 1
deriving DecidableEq

/-- Construct a `CacheEntry` the way `CacheOptimizer.set` does, including the
`__post_init__` size computation. -/
def mkCacheEntry (key value : String) (created_at last_accessed ttl : ℚ) : CacheEntry :=
  { key := key, value := value, created_at := created_at,
    last_accessed := last_accessed, ttl := ttl, size := value.length }

/-- `AdaptiveTTLStrategy` state (default `base_ttl=300`, `max_ttl=3600`,
`min_ttl=60`); `access_patterns` is a `defaultdict(list)` of timestamps. -/
structure AdaptiveTTLStrategy where
  base_ttl : ℚ := 300
  max_ttl : ℚ := 3600
  min_ttl : ℚ := 60
  access_patterns : List (String × List ℚ) := []
deriving DecidableEq

/-- `AdaptiveTTLStrategy.should_evict`: expired when
`current_time - last_accessed > ttl` (note: last access, not creation). -/
def AdaptiveTTLStrategy.should_evict (e : CacheEntry) (current_time : ℚ) : Bool :=
  decide (current_time - e.last_accessed > e.ttl)

/-- `AdaptiveTTLStrategy.calculate_priority`: with at least 3 recorded access
timestamps, grow the entry's TTL by `×1.5` capped at `max_ttl` when the mean
access interval is under 60s, shrink it by `×0.8` floored at `min_ttl` when
over 1800s; then blend recency and frequency with weights `0.6`/`0.4`.
The source mutates `entry.ttl` in place; the updated entry is returned
together with the score. -/
def AdaptiveTTLStrategy.calculate_priority (st : AdaptiveTTLStrategy)
    (e : CacheEntry) (current_time : ℚ) : CacheEntry × ℚ :=
  let pat := ((st.access_patterns.lookup e.key).getD [])
  let e :=
    if 3 ≤ pat.length then
      let intervals := (pat.zip pat.tail).map (fun p => p.2 - p.1)
      let avg_interval := intervals.sum / (intervals.length : ℚ)
      if avg_interval < 60 then { e with ttl := min st.max_ttl (e.ttl * (3/2)) }
      else if avg_interval > 1800 then { e with ttl := max st.min_ttl (e.ttl * (4/5)) }
      else e
    else e
  let lru_factor := 1 / (current_time - e.last_accessed + 1)
  let lfu_factor := (e.access_count : ℚ) / (current_time - e.created_at + 1)
  (e, lru_factor * (3/5) + lfu_factor * (2/5))

/-- `AdaptiveTTLStrategy.record_access`: append the timestamp to the key's
pattern (creating it, as the `defaultdict` does) and keep the last 10. -/
def AdaptiveTTLStrategy.record_access (st : AdaptiveTTLStrategy) (key : String)
    (timestamp : ℚ) : AdaptiveTTLStrategy :=
  let pat := ((st.access_patterns.lookup key).getD []) ++ [timestamp]
  let pat := if 10 < pat.length then pat.drop (pat.length - 10) else pat
  { st with access_patterns :=
      if st.access_patterns.any (fun p => p.1 == key) then
        st.access_patterns.map (fun p => if p.1 == key then (p.1, pat) else p)
      else st.access_patterns ++ [(key, pat)] }

/-- Add `v` to an integer-valued `defaultdict(int)` slot, creating the slot
at 0 first, as Python `d[k] += v` does. -/
def assocAdd (l : List (String × ℤ)) (k : String) (v : ℤ) : List (String × ℤ) :=
  if l.any (fun p => p.1 == k) then
    l.map (fun p => if p.1 == k then (p.1, p.2 + v) else p)
  else l ++ [(k, v)]

/-- `HotspotDetector` state (defaults `window_size=100`,
`hotspot_threshold=5`). -/
structure HotspotDetector where
  window_size : ℕ := 100
  hotspot_threshold : ℕ := 5
  access_log : List (String × ℚ) := []
  hotspots : List String := []
  key_frequencies : List (String × ℤ) := []
deriving DecidableEq

/-- The `int(window_size * 0.3)` recent-window length of
`HotspotDetector._update_hotspots`.  For the window sizes used here
(multiples of 10) the float product rounds to the exact value, so natural
floor division is faithful. -/
def HotspotDetector.recent_window (d : HotspotDetector) : ℕ :=
  3 * d.window_size / 10

/-- The keys of the most recent `recent_window` accesses, i.e. Python's
`access_log[-recent_window:]` (whose `[-0:]` edge case is the whole log). -/
def HotspotDetector.recent_keys (d : HotspotDetector) : List String :=
  if d.recent_window = 0 then d.access_log.map Prod.fst
  else (d.access_log.drop (d.access_log.length - d.recent_window)).map Prod.fst

/-- `HotspotDetector._update_hotspots`: once the log holds at least
`recent_window` events, recompute the hotspot set as the keys whose count in
the recent window reaches the threshold. -/
def HotspotDetector.update_hotspots (d : HotspotDetector) : HotspotDetector :=
  if d.recent_window ≤ d.access_log.length then
    let key_counts := d.recent_keys.foldl (fun acc k => assocAdd acc k 1) []
    { d with hotspots :=
        (key_counts.filter (fun p => (d.hotspot_threshold : ℤ) ≤ p.2)).map Prod.fst }
  else d

/-- The log/frequency bookkeeping of `HotspotDetector.record_access` before
its final `_update_hotspots()` call: append the event, bump the key's
frequency and trim the log to `window_size` (decrementing and possibly
deleting the evicted key's frequency). -/
def HotspotDetector.record_access_pre (d : HotspotDetector) (key : String)
    (timestamp : ℚ) : HotspotDetector :=
  let log := d.access_log ++ [(key, timestamp)]
  let freqs := assocAdd d.key_frequencies key 1
  let dropOld :=
    if d.window_size < log.length then
      match log with
      | [] => (log, freqs)
      | (old_key, _) :: rest =>
        let freqs := assocAdd freqs old_key (-1)
        let freqs :=
          if ((freqs.lookup old_key).getD 0) ≤ 0 then
            freqs.filter (fun p => p.1 != old_key)
          else freqs
        (rest, freqs)
    else (log, freqs)
  { d with access_log := dropOld.1, key_frequencies := dropOld.2 }

/-- `HotspotDetector.record_access`: the bookkeeping above followed by the
hotspot recomputation. -/
def HotspotDetector.record_access (d : HotspotDetector) (key : String) (timestamp : ℚ) :
    HotspotDetector :=
  (d.record_access_pre key timestamp).update_hotspots

/-- `HotspotDetector.is_hotspot`. -/
def HotspotDetector.is_hotspot (d : HotspotDetector) (key : String) : Bool :=
  d.hotspots.contains key

/-- `CacheMetrics` counters (the derived rates are recomputed by
`update_hit_rate`). -/
structure CacheMetrics where
  hits : ℕ := 0
  misses : ℕ := 0
  evictions : ℕ := 0
  total_requests : ℕ := 0
  hit_rate : ℚ := 0
  miss_rate : ℚ := 0
deriving DecidableEq

/-- `CacheMetrics.update_hit_rate`. -/
def CacheMetrics.update_hit_rate (m : CacheMetrics) : CacheMetrics :=
  if 0 < m.total_requests then
    { m with hit_rate := (m.hits : ℚ) / (m.total_requests : ℚ),
             miss_rate := (m.misses : ℚ) / (m.total_requests : ℚ) }
  else m

/-- `CacheOptimizer` state (default `max_size=1000`); `cache_data` is its own
entry store, separate from the tiered `IntelligentCache` it wraps. -/
structure CacheOptimizer where
  max_size : ℕ := 1000
  cache_data : List (String × CacheEntry) := []
  strategy : AdaptiveTTLStrategy := {}
  hotspot_detector : HotspotDetector := {}
  metrics : CacheMetrics := {}
deriving DecidableEq

/-- `CacheOptimizer._evict_expired`: drop every entry the strategy marks
expired and count the evictions. -/
def CacheOptimizer.evict_expired (c : CacheOptimizer) (current_time : ℚ) : CacheOptimizer :=
  let expired := c.cache_data.filter (fun p => AdaptiveTTLStrategy.should_evict p.2 current_time)
  { c with
      cache_data :=
        c.cache_data.filter (fun p => ! AdaptiveTTLStrategy.should_evict p.2 current_time),
      metrics := { c.metrics with evictions := c.metrics.evictions + expired.length } }

/-- Stable ascending insertion used to model Python's stable `list.sort`. -/
def insertByScore (x : String × ℚ) : List (String × ℚ) → List (String × ℚ)
  | [] => [x]
  | y :: ys => if y.2 ≤ x.2 then y :: insertByScore x ys else x :: y :: ys

/-- Stable sort by ascending score, as `entries.sort(key=lambda x: x[1])`. -/
def sortByScore (l : List (String × ℚ)) : List (String × ℚ) :=
  l.foldl (fun acc x => insertByScore x acc) []

/-- `CacheOptimizer._evict_lru`: when over `max_size`, score every entry with
`calculate_priority` (which also adjusts each entry's TTL in place through
aliasing), sort ascending and evict the lowest-scoring 10% (at least one). -/
def CacheOptimizer.evict_lru (c : CacheOptimizer) (current_time : ℚ) : CacheOptimizer :=
  if c.max_size < c.cache_data.length then
    let updated := c.cache_data.map (fun p =>
      (p.1, (c.strategy.calculate_priority p.2 current_time).1))
    let entries := c.cache_data.map (fun p =>
      (p.1, (c.strategy.calculate_priority p.2 current_time).2))
    let to_evict := (sortByScore entries).take (max 1 (entries.length / 10))
    let evict_keys := to_evict.map Prod.fst
    { c with
        cache_data := updated.filter (fun p => ! evict_keys.contains p.1),
        metrics := { c.metrics with evictions := c.metrics.evictions + evict_keys.length } }
  else c

/-- `CacheOptimizer.get`: a present entry has its access bookkeeping updated
(without any TTL check on the read path) and its value returned; a missing
key counts a miss.  `time.time()` is the explicit `current_time`. -/
def CacheOptimizer.get (c : CacheOptimizer) (key : String) (current_time : ℚ) :
    Option String × CacheOptimizer :=
  match c.cache_data.lookup key with
  | none =>
    (none, { c with metrics :=
      ({ c.metrics with misses := c.metrics.misses + 1,
                        total_requests := c.metrics.total_requests + 1 }).update_hit_rate })
  | some e =>
    let e := { e with last_accessed := current_time, access_count := e.access_count + 1 }
    let updated : List (String × CacheEntry) :=
      c.cache_data.map (fun p => if p.1 == key then (p.1, e) else p)
    let c := { c with
      cache_data := updated,
      hotspot_detector := c.hotspot_detector.record_access key current_time,
      strategy := c.strategy.record_access key current_time }
    (some e.value,
      { c with metrics :=
        ({ c.metrics with hits := c.metrics.hits + 1,
                          total_requests := c.metrics.total_requests + 1 }).update_hit_rate })

/-- Python `ttl or 300.0` of `CacheOptimizer.set`: `None` and `0.0` both fall
back to the default. -/
def pyOrTTL (ttl : Option ℚ) : ℚ :=
  match ttl with
  | none => 300
  | some t => if t = 0 then 300 else t

/-- `CacheOptimizer.set`: build the entry, double its TTL if the key is
currently flagged hot, store it (no TTL clamping anywhere on this path), and
trigger `_evict_lru` if the store is over `max_size`. -/
def CacheOptimizer.set (c : CacheOptimizer) (key value : String) (ttl : Option ℚ)
    (current_time : ℚ) : CacheOptimizer :=
  let e := mkCacheEntry key value current_time current_time (pyOrTTL ttl)
  let e := if c.hotspot_detector.is_hotspot key then { e with ttl := e.ttl * 2 } else e
  let stored : List (String × CacheEntry) :=
    if c.cache_data.any (fun p => p.1 == key) then
      c.cache_data.map (fun p => if p.1 == key then (p.1, e) else p)
    else c.cache_data ++ [(key, e)]
  let c1 : CacheOptimizer := { c with cache_data := stored }
  if c1.max_size < c1.cache_data.length then c1.evict_lru current_time else c1

/-- `CacheMetadata` dataclass of `intelligent_cache.py` (`ttl` is
`Optional[int]`; `tags or []` is already applied by the caller). -/
structure CacheMetadata where
  key : String
  size : ℕ
  created_at : ℚ
  accessed_at : ℚ
  access_count : ℕ
  ttl : Option ℤ := none
  tags : List String := []
deriving DecidableEq

/-- Python truthiness of `meta.ttl` in `if meta.ttl and …`: `None` and `0`
are falsy. -/
def ttlActive (ttl : Option ℤ) : Bool :=
  match ttl with
  | none => false
  | some t => t != 0

/-- Whether `meta.ttl and now - meta.created_at > meta.ttl` holds. -/
def metaExpired (meta : CacheMetadata) (now : ℚ) : Bool :=
  ttlActive meta.ttl && decide (((meta.ttl.getD 0 : ℤ) : ℚ) < now - meta.created_at)

/-- Python `ttl or self.default_ttl` of `LocalCache.set` (`None` and `0`
fall back to the default). -/
def pyOrInt (ttl : Option ℤ) (dflt : ℤ) : ℤ :=
  match ttl with
  | none => dflt
  | some t => if t = 0 then dflt else t

/-- `LocalCache` state: a value map, a metadata map and the running byte
total.  Values are opaque `String` payloads whose pickled size is supplied by
an explicit size function at each `set`. -/
structure LocalCache where
  max_size_bytes : ℕ
  default_ttl : ℤ
  data : List (String × String)
  metadata : List (String × CacheMetadata)
  total_size : ℤ
deriving DecidableEq

/-- `LocalCache(max_size_mb, default_ttl)` with an empty store (the byte
budget is taken directly in bytes). -/
def LocalCache.init (max_size_bytes : ℕ) (default_ttl : ℤ) : LocalCache :=
  { max_size_bytes := max_size_bytes, default_ttl := default_ttl,
    data := [], metadata := [], total_size := 0 }

/-- `LocalCache._remove_key`: if the key is stored, subtract its recorded
size and delete it from both maps.  The source would raise `KeyError` if the
key were in `data` but not `metadata`; under the bookkeeping invariant proved
below that branch is unreachable, and it leaves the state unchanged here. -/
def LocalCache.remove_key (c : LocalCache) (key : String) : LocalCache :=
  if c.data.any (fun p => p.1 == key) then
    match c.metadata.lookup key with
    | some meta =>
      { c with
          total_size := c.total_size - meta.size,
          data := c.data.filter (fun p => p.1 != key),
          metadata := c.metadata.filter (fun p => p.1 != key) }
    | none => c
  else c

/-- `LocalCache.get`: a stored, TTL-expired entry is removed and reported
absent; otherwise the access statistics are updated and the value returned. -/
def LocalCache.get (c : LocalCache) (key : String) (now : ℚ) : Option String × LocalCache :=
  match c.data.lookup key with
  | none => (none, c)
  | some v =>
    match c.metadata.lookup key with
    | none => (none, c)
    | some meta =>
      if metaExpired meta now then (none, c.remove_key key)
      else
        (some v,
          { c with metadata := c.metadata.map (fun p =>
              if p.1 == key then
                (p.1, { p.2 with accessed_at := now, access_count := p.2.access_count + 1 })
              else p) })

/-- The first key with minimal `accessed_at`, i.e.
`min(metadata.items(), key=lambda x: x[1].accessed_at)[0]`. -/
def LocalCache.oldest_key (c : LocalCache) : Option String :=
  match c.metadata with
  | [] => none
  | m :: ms =>
    some ((ms.foldl (fun best p => if p.2.accessed_at < best.2.accessed_at then p else best) m).1)

/-- The eviction `while` loop of `LocalCache.set`: remove least-recently
accessed keys while the insert would overflow the budget and data remains.
Each iteration removes a stored key, so `data.length` fuel suffices. -/
def LocalCache.evict_for_space (c : LocalCache) (size : ℕ) : ℕ → LocalCache
  | 0 => c
  | fuel + 1 =>
    if ((c.max_size_bytes : ℤ) < c.total_size + size) ∧ ¬ c.data.isEmpty then
      match c.oldest_key with
      | some k => LocalCache.evict_for_space (c.remove_key k) size fuel
      | none => c
    else c

/-- `LocalCache.set`: compute the size, remove any old entry under the key,
evict until the insert fits (or the store is empty), then append the value
and its metadata and add the size to the running total.  `sz` models
`len(pickle.dumps(value))`. -/
def LocalCache.set (c : LocalCache) (sz : String → ℕ) (key value : String)
    (ttl : Option ℤ) (tags : List String) (now : ℚ) : LocalCache :=
  let size := sz value
  let c1 := if c.data.any (fun p => p.1 == key) then c.remove_key key else c
  let c2 := c1.evict_for_space size c1.data.length
  { c2 with
      data := c2.data ++ [(key, value)],
      metadata := c2.metadata ++
        [(key,
          { key := key, size := size, created_at := now, accessed_at := now,
            access_count := 1, ttl := some (pyOrInt ttl c.default_ttl), tags := tags })],
      total_size := c2.total_size + size }

/-- `LocalCache.delete`. -/
def LocalCache.delete (c : LocalCache) (key : String) : Bool × LocalCache :=
  if c.data.any (fun p => p.1 == key) then (true, c.remove_key key) else (false, c)

/-- The keys whose metadata carries at least one of the given tags. -/
def LocalCache.tagged_keys (c : LocalCache) (tags : List String) : List String :=
  (c.metadata.filter (fun p => tags.any (fun t => p.2.tags.contains t))).map Prod.fst

/-- `LocalCache.delete_by_tags`: remove every entry carrying at least one of
the given tags and return how many were removed. -/
def LocalCache.delete_by_tags (c : LocalCache) (tags : List String) : ℕ × LocalCache :=
  let keys := c.tagged_keys tags
  (keys.length, keys.foldl (fun acc k => acc.remove_key k) c)

/-- `LocalCache._cleanup`: collect the TTL-expired keys; if the store is over
budget (and non-empty) the LRU ranking immediately raises `AttributeError`
(the sort key reads the non-existent field `access_at`), leaving the state
unchanged; otherwise the expired keys are removed (the source iterates
`set(keys_to_remove)`; removal order does not affect the result). -/
def LocalCache.cleanup (c : LocalCache) (now : ℚ) : Except String LocalCache :=
  let expired := (c.metadata.filter (fun p => metaExpired p.2 now)).map Prod.fst
  if ((c.max_size_bytes : ℤ) < c.total_size) ∧ ¬ c.metadata.isEmpty then
    Except.error "AttributeError: CacheMetadata object has no attribute access_at"
  else
    Except.ok (expired.dedup.foldl (fun acc k => acc.remove_key k) c)

/-- The `LocalCache` operations reachable from outside plus the periodic
cleanup pass of `_cleanup_worker`. -/
inductive LCOp where
  | get (key : String) (now : ℚ)
  | set (key value : String) (ttl : Option ℤ) (tags : List String) (now : ℚ)
  | del (key : String)
  | delByTags (tags : List String)
  | cleanup (now : ℚ)

/-- Apply one `LocalCache` operation; a `cleanup` that raises leaves the
state as it was. -/
def LocalCache.step (sz : String → ℕ) (c : LocalCache) : LCOp → LocalCache
  | .get key now => (c.get key now).2
  | .set key value ttl tags now => c.set sz key value ttl tags now
  | .del key => (c.delete key).2
  | .delByTags tags => (c.delete_by_tags tags).2
  | .cleanup now =>
    match c.cleanup now with
    | .ok c2 => c2
    | .error _ => c

/-- Run a sequence of `LocalCache` operations. -/
def LocalCache.runOps (sz : String → ℕ) (c : LocalCache) (ops : List LCOp) : LocalCache :=
  ops.foldl (LocalCache.step sz) c

/-- The bookkeeping invariant of `LocalCache`: `data` and `metadata` hold the
same keys in the same order without duplicates, and `total_size` is the sum
of the recorded entry sizes. -/
def LocalCache.inv (c : LocalCache) : Prop :=
  c.data.map Prod.fst = c.metadata.map Prod.fst ∧
  (c.metadata.map Prod.fst).Nodup ∧
  c.total_size = (c.metadata.map (fun p => (p.2.size : ℤ))).sum

/-- `IntelligentCache._make_key` as used by the Redis tier. -/
def make_key (key : String) : String := "capcut:cache:" ++ key

/-- Redis `KEYS` glob matching, modelled for the patterns the source uses
(a literal prefix followed by `*`); other patterns are literal.  The Redis
server itself is an external collaborator (spec §6).  Matching runs on the
character lists underlying the strings. -/
def globMatch (pat s : String) : Bool :=
  if pat.data.getLast? = some '*' then pat.data.dropLast.isPrefixOf s.data
  else pat == s

/-- `RedisCache.delete_by_pattern`: the server-side keys are matched against
`_make_key(pattern)` (note the prefix is applied to the already-prefixed
pattern) and the matches deleted; returns the number deleted. -/
def redis_delete_by_pattern (store : List (String × String)) (pat : String) :
    ℕ × List (String × String) :=
  let keys := (store.map Prod.fst).filter (fun k => globMatch (make_key pat) k)
  (keys.length, store.filter (fun p => ! globMatch (make_key pat) p.1))

/-- `IntelligentCache` state for the tier-level claims: the Local tier plus
the Remote (Redis) and Disk stores, each modelled as a key/value map holding
whatever previous multi-tier writes put there (Redis under `_make_key`). -/
structure IntelligentCache where
  local_cache : LocalCache
  redis_store : List (String × String)
  disk_store : List (String × String)
  default_ttl : ℤ := 3600

/-- `IntelligentCache.delete_by_tags` with `level="all"`: tag-exact deletion
on the Local tier; on Redis a `delete_by_pattern("capcut:cache:*")` (which
the Redis tier re-prefixes); on Disk nothing at all (`pass` in the source). -/
def IntelligentCache.delete_by_tags (c : IntelligentCache) (tags : List String) :
    ℕ × IntelligentCache :=
  let r1 := c.local_cache.delete_by_tags tags
  let r2 := redis_delete_by_pattern c.redis_store "capcut:cache:*"
  (r1.1 + r2.1, { c with local_cache := r1.2, redis_store := r2.2 })

/-- The operations callers and the scheduling loop perform on a `TaskQueue`. -/
inductive QOp where
  | add (t : Task)
  | next
  | markDone (tid : String)

/-- Apply one `TaskQueue` operation. -/
def TaskQueue.qstep (q : TaskQueue) : QOp → TaskQueue
  | .add t => (q.add_task t).2
  | .next => q.get_next_task.2
  | .markDone tid => q.mark_completed tid

/-- Run a sequence of `TaskQueue` operations. -/
def TaskQueue.runOps (q : TaskQueue) (ops : List QOp) : TaskQueue :=
  ops.foldl TaskQueue.qstep q

/-- Concrete task constructor used by the example states below; the resource
requirement uses whole-number values so that concrete admission checks are
literal rational comparisons. -/
def mkTask (n : String) (p : Priority) (deps : List String := []) : Task :=
  { task_id := n, priority := p, dependencies := deps,
    resource_requirement :=
      { cpu_cores := 1, memory_mb := 100, disk_mb := 50,
        gpu_memory_mb := 0, network_bandwidth := 1 } }

/-- A monitor snapshot with ample resources, so admission is limited only by
the concurrency cap. -/
def availAll : ResourceRequirement :=
  { cpu_cores := 100, memory_mb := 1000000, disk_mb := 1000000 }

/-- Scheduler trace for C1: two tasks dispatched under cap 2, then
`adjust_concurrency(1)` lowers the cap below the active count. -/
def c1_state : ResourceScheduler :=
  (ResourceScheduler.init 2).run
    [.submit (mkTask "t1" .NORMAL), .tick availAll,
     .submit (mkTask "t2" .NORMAL), .tick availAll, .adjust 1]

/-- Scheduler for the C3 scenario: CRITICAL, NORMAL, NORMAL submissions with
no dependencies under concurrency cap 1. -/
def c3_sched : ResourceScheduler :=
  (ResourceScheduler.init 1).run
    [.submit (mkTask "c1" .CRITICAL), .submit (mkTask "n1" .NORMAL),
     .submit (mkTask "n2" .NORMAL)]

/-- Scheduler operations for the C1 witness: a submission and a tick, with no
concurrency adjustment. -/
def c1w_ops : List SchedOp := [.submit (mkTask "t1" .NORMAL), .tick availAll]

/-- Queue for the C10 witness: `"d"` is already completed. -/
def c10_q : TaskQueue := TaskQueue.init.mark_completed "d"

/-- Task for the C10 witness, depending on the completed `"d"`. -/
def c10_t : Task := mkTask "t2" .NORMAL ["d"]

/-- Queue operations for the C10 witness. -/
def c10_ops : List QOp := [.add c10_t, .next, .markDone "t2"]

/-- C3: a dependency-free CRITICAL task that ends up below the blocked heap
top of its tier. -/
def c3_tB : Task := mkTask "tB" .CRITICAL

/-- C3: a CRITICAL task blocked on an uncompleted dependency. -/
def c3_tA : Task := mkTask "tA" .CRITICAL ["d"]

/-- C3: a dependency-free NORMAL task. -/
def c3_tN : Task := mkTask "tN" .NORMAL

/-- Queue for the C3 counterexample: after these submissions the CRITICAL
heap is `[tA, tB]` with the blocked `tA` on top. -/
def c3_blocked_queue : TaskQueue :=
  (((TaskQueue.init.add_task c3_tB).2.add_task c3_tA).2.add_task c3_tN).2

/-- C4: optimizer holding one entry with TTL 10 written at time 0. -/
def c4_start : CacheOptimizer := CacheOptimizer.set {} "k" "v" (some 10) 0

/-- C4: the same optimizer after a `get` at time 95 refreshed
`last_accessed`. -/
def c4_after_get : CacheOptimizer := (c4_start.get "k" 95).2

/-- C4: the stored entry after the refresh — created at 0, last accessed at
95, TTL 10, so its age (100) exceeds its TTL at time 100. -/
def c4_entry : CacheEntry :=
  { key := "k", value := "v", created_at := 0, last_accessed := 95,
    access_count := 2, size := 1, ttl := 10, priority := 1 }

/-- C4 witness: an entry idle since time 0 with TTL 10. -/
def c4w_entry : CacheEntry :=
  { key := "k", value := "v", created_at := 0, last_accessed := 0,
    access_count := 1, size := 1, ttl := 10, priority := 1 }

/-- C4 witness: an optimizer holding only `c4w_entry`. -/
def c4w_state : CacheOptimizer := { cache_data := [("k", c4w_entry)] }

/-- C5: a default optimizer after `set("k", "v", ttl=5000)`. -/
def c5_state : CacheOptimizer := CacheOptimizer.set {} "k" "v" (some 5000) 0

/-- C5: the entry stored by `c5_state` — its TTL 5000 exceeds the strategy's
`max_ttl` of 3600. -/
def c5_entry : CacheEntry :=
  { key := "k", value := "v", created_at := 0, last_accessed := 0,
    access_count := 1, size := 1, ttl := 5000, priority := 1 }

/-- C5 witness: the entry stored by a default `set("k", "v")` at time 0; its
TTL is the 300 default, inside the default `[60, 3600]` range. -/
def c5w_entry : CacheEntry :=
  { key := "k", value := "v", created_at := 0, last_accessed := 0,
    access_count := 1, size := 1, ttl := 300, priority := 1 }

/-- C8: detector with a 10-access window and hotspot threshold 5. -/
def c8_d0 : HotspotDetector := { window_size := 10, hotspot_threshold := 5 }

/-- C8: the detector after key `h` was accessed 6 times inside the
10-access window. -/
def c8_d6 : HotspotDetector :=
  (([0, 1, 2, 3, 4, 5] : List ℚ)).foldl (fun d t => d.record_access "h" t) c8_d0

/-- C8 witness: detector with threshold 1 after two accesses of `h`. -/
def c8_w2 : HotspotDetector :=
  ((({ window_size := 10, hotspot_threshold := 1 } : HotspotDetector).record_access
      "h" 0).record_access "h" 1)

/-- Size model used by the concrete `LocalCache` states: the payload length
stands in for `len(pickle.dumps(value))`. -/
def strLen : String → ℕ := String.length

/-- C6: a Local tier holding `a` tagged `["t"]` and an untagged `b`. -/
def c6_lc : LocalCache :=
  ((LocalCache.init 1000000 3600).set strLen "a" "va" none ["t"] 0).set strLen
    "b" "vb" none [] 1

/-- C6: the tiered cache with both entries present in all three tiers. -/
def c6_ic : IntelligentCache :=
  { local_cache := c6_lc,
    redis_store := [(make_key "a", "va"), (make_key "b", "vb")],
    disk_store := [("a", "da"), ("b", "db")] }

/-- C6: the tiered cache after `delete_by_tags(["t"])`. -/
def c6_result : IntelligentCache := (c6_ic.delete_by_tags ["t"]).2

/-- C9 witness: a trace with an overwriting set, reads, a cleanup pass, tag
deletion and a plain delete. -/
def c9w_ops : List LCOp :=
  [.set "k" "v1" none ["t"] 0, .set "k" "longer-value" none [] 1, .get "k" 2,
   .set "j" "w" (some 5) ["t"] 3, .cleanup 100, .delByTags ["t"], .del "k"]

/-! ### Association-list helper lemmas -/

theorem lookup_eq_none_of_not_mem {β : Type} {l : List (String × β)} {k : String}
    (h : k ∉ l.map Prod.fst) : l.lookup k = none := by
  induction l with
  | nil => rfl
  | cons p rest ih =>
    simp only [List.map_cons, List.mem_cons, not_or] at h
    simp only [List.lookup]
    rw [show (k == p.1) = false from beq_eq_false_iff_ne.mpr h.1]
    exact ih h.2

theorem mem_keys_of_lookup {β : Type} {l : List (String × β)} {k : String} {b : β}
    (h : l.lookup k = some b) : k ∈ l.map Prod.fst := by
  by_contra hk
  rw [lookup_eq_none_of_not_mem hk] at h
  exact Option.noConfusion h

theorem mem_of_lookup {β : Type} {l : List (String × β)} {k : String} {b : β}
    (h : l.lookup k = some b) : (k, b) ∈ l := by
  induction l with
  | nil => exact Option.noConfusion h
  | cons p rest ih =>
    simp only [List.lookup] at h
    rcases hk : (k == p.1) with _ | _
    · rw [hk] at h
      exact List.mem_cons_of_mem _ (ih h)
    · rw [hk] at h
      obtain rfl : p.2 = b := Option.some_injective _ h
      obtain rfl : k = p.1 := beq_iff_eq.mp hk
      exact List.mem_cons_self _ _

theorem lookup_isSome_of_mem_keys {β : Type} {l : List (String × β)} {k : String}
    (h : k ∈ l.map Prod.fst) : ∃ b, l.lookup k = some b := by
  cases hl : l.lookup k with
  | some b => exact ⟨b, rfl⟩
  | none =>
    induction l with
    | nil => simp at h
    | cons p rest ih =>
      simp only [List.lookup] at hl
      rcases hk : (k == p.1) with _ | _
      · rw [hk] at hl
        simp only [List.map_cons, List.mem_cons] at h
        rcases h with h | h
        · exact absurd (beq_iff_eq.mpr h) (by simp [hk])
        · exact ih h hl
      · rw [hk] at hl
        exact Option.noConfusion hl

/-! ### C2: tasks are dispatched only with all dependencies completed -/

theorem get_next_go_completed (ps : List Priority) (q : TaskQueue) :
    (TaskQueue.get_next_go q ps).2.completed_tasks = q.completed_tasks := by
  induction ps generalizing q with
  | nil => rfl
  | cons p rest ih =>
    simp only [TaskQueue.get_next_go]
    split
    · exact ih q
    · split
      · rfl
      · exact ih _

theorem get_next_go_deps (ps : List Priority) (q : TaskQueue) (t : Task)
    (h : (TaskQueue.get_next_go q ps).1 = some t) :
    ∀ d ∈ t.dependencies, d ∈ q.completed_tasks := by
  induction ps generalizing q with
  | nil => exact Option.noConfusion h
  | cons p rest ih =>
    simp only [TaskQueue.get_next_go] at h
    split at h
    · exact ih _ h
    · split at h
      · rename_i hd
        obtain rfl := Option.some_injective _ h
        intro d hdep
        exact List.mem_of_elem_eq_true (List.all_eq_true.mp hd d hdep)
      · have hrec := ih _ h
        exact hrec

/-- C2: for every scheduler state and monitor snapshot, a task dispatched by
a scheduling tick has every one of its dependency identifiers already in the
completed set — a task with unmet dependencies is never dispatched. -/
theorem C2_dispatch_only_when_deps_completed (s : ResourceScheduler)
    (available : ResourceRequirement) (t : Task)
    (h : (s.scheduling_tick available).1 = some t) :
    ∀ d ∈ t.dependencies, d ∈ s.task_queue.completed_tasks := by
  simp only [ResourceScheduler.scheduling_tick] at h
  split at h
  · exact Option.noConfusion h
  · rename_i t0 heq
    split at h
    · obtain rfl := Option.some_injective _ h
      exact get_next_go_deps priorityScanOrder s.task_queue t0 heq
    · exact Option.noConfusion h

/-- C2 witness: a concrete dispatch (dependency-free task under cap 2)
satisfies the dependency condition. -/
theorem C2_witness :
    (((ResourceScheduler.init 2).submit_task (mkTask "t" .NORMAL)).scheduling_tick
        availAll).1 = some (mkTask "t" .NORMAL) ∧
    ∀ d ∈ (mkTask "t" .NORMAL).dependencies,
      d ∈ ((ResourceScheduler.init 2).submit_task
        (mkTask "t" .NORMAL)).task_queue.completed_tasks :=
  ⟨by decide,
   C2_dispatch_only_when_deps_completed _ availAll (mkTask "t" .NORMAL) (by decide)⟩

/-! ### C10: the completed set grows monotonically -/

theorem completed_mem_add (q : TaskQueue) (t : Task) (x : String)
    (h : x ∈ q.completed_tasks) : x ∈ ((q.add_task t).2).completed_tasks := by
  simp only [TaskQueue.add_task]
  split
  · exact h
  · exact h

theorem completed_mem_mark (q : TaskQueue) (tid x : String)
    (h : x ∈ q.completed_tasks) : x ∈ (q.mark_completed tid).completed_tasks := by
  simp only [TaskQueue.mark_completed]
  split
  · exact h
  · exact List.mem_append_left _ h

theorem completed_mem_qstep (q : TaskQueue) (op : QOp) (x : String)
    (h : x ∈ q.completed_tasks) : x ∈ (q.qstep op).completed_tasks := by
  cases op with
  | add t => exact completed_mem_add q t x h
  | next =>
    have hc := get_next_go_completed priorityScanOrder q
    simpa only [TaskQueue.qstep, TaskQueue.get_next_task, hc] using h
  | markDone tid => exact completed_mem_mark q tid x h

/-- C10: `mark_completed` only adds identifiers and no `TaskQueue` operation
removes one, so the completed set grows monotonically and a task whose
dependencies are all completed stays ready across every later operation. -/
theorem C10_completed_monotone (q : TaskQueue) (ops : List QOp) (t : Task)
    (h : ∀ d ∈ t.dependencies, d ∈ q.completed_tasks) :
    (∀ x ∈ q.completed_tasks, x ∈ (q.runOps ops).completed_tasks) ∧
    (∀ d ∈ t.dependencies, d ∈ (q.runOps ops).completed_tasks) := by
  have mono : ∀ (q2 : TaskQueue) (x : String), x ∈ q2.completed_tasks →
      x ∈ (q2.runOps ops).completed_tasks := by
    induction ops with
    | nil => exact fun q2 x hx => hx
    | cons op rest ih =>
      exact fun q2 x hx => ih (q2.qstep op) x (completed_mem_qstep q2 op x hx)
  exact ⟨fun x hx => mono q x hx, fun d hd => mono q d (h d hd)⟩

/-- C10 witness: a concrete queue with `"d"` completed keeps `"d"` (and the
readiness of a task depending on it) across add/scan/complete operations. -/
theorem C10_witness :
    (∀ d ∈ c10_t.dependencies, d ∈ c10_q.completed_tasks) ∧
    ((∀ x ∈ c10_q.completed_tasks, x ∈ (c10_q.runOps c10_ops).completed_tasks) ∧
      (∀ d ∈ c10_t.dependencies, d ∈ (c10_q.runOps c10_ops).completed_tasks)) :=
  ⟨by decide, C10_completed_monotone c10_q c10_ops c10_t (by decide)⟩

/-! ### C1: active tasks versus the concurrency cap -/

theorem can_execute_lt (s : ResourceScheduler) (available : ResourceRequirement)
    (t : Task) (h : s.can_execute_task available t = true) :
    s.active_tasks.length < s.max_concurrent_tasks := by
  by_cases hge : s.active_tasks.length ≥ s.max_concurrent_tasks
  · simp [ResourceScheduler.can_execute_task, hge] at h
  · omega

theorem tick_active_le (s : ResourceScheduler) (available : ResourceRequirement)
    (h : s.active_tasks.length ≤ s.max_concurrent_tasks) :
    ((s.scheduling_tick available).2).active_tasks.length ≤
      ((s.scheduling_tick available).2).max_concurrent_tasks := by
  simp only [ResourceScheduler.scheduling_tick]
  split
  · exact h
  · split
    · rename_i t0 heq hc
      have hlt : s.active_tasks.length < s.max_concurrent_tasks :=
        can_execute_lt _ available t0 hc
      simp only [List.length_append, List.length_cons, List.length_nil]
      omega
    · exact h

/-- C1 counterexample: dispatch two tasks under cap 2, then
`adjust_concurrency(1)`; the active count (2) now exceeds the cap (1), so the
bound does not hold for every operation sequence. -/
theorem C1_counterexample :
    c1_state.max_concurrent_tasks < c1_state.active_tasks.length := by decide

/-- C1 (amended): for every operation sequence that never calls
`adjust_concurrency` — dispatch itself admits a task only when the active
count is strictly below the cap — the active count never exceeds the cap. -/
theorem C1_active_le_cap_without_adjust (s : ResourceScheduler) (ops : List SchedOp)
    (hops : ∀ op ∈ ops, op.isAdjust = false)
    (hs : s.active_tasks.length ≤ s.max_concurrent_tasks) :
    (s.run ops).active_tasks.length ≤ (s.run ops).max_concurrent_tasks := by
  induction ops generalizing s with
  | nil => exact hs
  | cons op rest ih =>
    have hstep : (s.step op).active_tasks.length ≤ (s.step op).max_concurrent_tasks := by
      cases op with
      | submit t => exact hs
      | tick available => exact tick_active_le s available hs
      | complete tid => exact le_trans (List.length_filter_le _ _) hs
      | adjust n =>
        have hadj := hops (.adjust n) (List.mem_cons_self _ _)
        exact absurd hadj (by simp [SchedOp.isAdjust])
    exact ih (s.step op) (fun op2 h2 => hops op2 (List.mem_cons_of_mem _ h2)) hstep

/-- C1 witness: a concrete adjust-free trace keeps the active count within
the cap. -/
theorem C1_witness :
    (∀ op ∈ c1w_ops, op.isAdjust = false) ∧
    (ResourceScheduler.init 2).active_tasks.length ≤
      (ResourceScheduler.init 2).max_concurrent_tasks ∧
    ((ResourceScheduler.init 2).run c1w_ops).active_tasks.length ≤
      ((ResourceScheduler.init 2).run c1w_ops).max_concurrent_tasks :=
  ⟨by decide, by decide,
   C1_active_le_cap_without_adjust (ResourceScheduler.init 2) c1w_ops
     (by decide) (by decide)⟩

/-! ### C3: the tier scan examines only each tier's heap top -/

/-- C3 counterexample: with the blocked `tA` on top of the CRITICAL heap, the
scan skips the ready CRITICAL task `tB` entirely and returns the NORMAL task
`tN`, so `get_next_task` does not return the first ready task in tier order. -/
theorem C3_counterexample :
    c3_blocked_queue.get_next_task.1 = some c3_tN ∧
    c3_tN.priority = Priority.NORMAL ∧
    c3_tB ∈ c3_blocked_queue.get_next_task.2.queues Priority.CRITICAL ∧
    c3_tB.priority = Priority.CRITICAL ∧
    (∀ d ∈ c3_tB.dependencies, d ∈ c3_blocked_queue.completed_tasks) := by
  decide

/-- C3 (amended): the scan visits tiers CRITICAL to BACKGROUND but examines
only each non-empty tier's heap top, re-enqueuing a blocked top and moving to
the next tier.  Concretely: the CRITICAL/NORMAL/NORMAL scenario dispatches the
CRITICAL task first, and in the blocked-top configuration the NORMAL task is
returned while both CRITICAL tasks (the blocked top and the unexamined ready
one) remain in the CRITICAL tier. -/
theorem C3_scenario_and_top_only_scan :
    (c3_sched.scheduling_tick availAll).1 = some (mkTask "c1" .CRITICAL) ∧
    (mkTask "c1" .CRITICAL).priority = Priority.CRITICAL ∧
    c3_blocked_queue.get_next_task.1 = some c3_tN ∧
    c3_blocked_queue.get_next_task.2.queues Priority.CRITICAL = [c3_tA, c3_tB] := by
  decide

/-! ### C7: auto-scaler evaluation formula and bounds -/

/-- C7: every `AutoScaler` evaluation computes the candidate cap
`clamp(⌊current · factor⌋, 2, 50)`, applies it exactly when it differs from
the current cap, and after the evaluation the cap lies in `[2, 50]`. -/
theorem C7_evaluate_scaling_clamped (s : ResourceScheduler) (cpu_percent memory_mb : ℚ) :
    ((evaluate_scaling s cpu_percent memory_mb).1.max_concurrent_tasks
        = (auto_scale_new_max s cpu_percent memory_mb).toNat) ∧
    ((evaluate_scaling s cpu_percent memory_mb).2
        = decide (auto_scale_new_max s cpu_percent memory_mb
            ≠ (s.max_concurrent_tasks : ℤ))) ∧
    2 ≤ (evaluate_scaling s cpu_percent memory_mb).1.max_concurrent_tasks ∧
    (evaluate_scaling s cpu_percent memory_mb).1.max_concurrent_tasks ≤ 50 := by
  have h2 : (2 : ℤ) ≤ auto_scale_new_max s cpu_percent memory_mb := le_max_left _ _
  have h50 : auto_scale_new_max s cpu_percent memory_mb ≤ 50 := by
    apply max_le
    · norm_num
    · exact min_le_right _ _
  simp only [evaluate_scaling]
  split
  · rename_i hne
    have hadj : (ResourceScheduler.adjust_concurrency s
          (auto_scale_new_max s cpu_percent memory_mb)).max_concurrent_tasks
        = (auto_scale_new_max s cpu_percent memory_mb).toNat := by
      show (max 1 (min (auto_scale_new_max s cpu_percent memory_mb) 50)).toNat = _
      rw [min_eq_left h50, max_eq_right (by omega : (1 : ℤ) ≤ _)]
    refine ⟨hadj, (decide_eq_true hne).symm, ?_, ?_⟩
    · show 2 ≤ (ResourceScheduler.adjust_concurrency s
        (auto_scale_new_max s cpu_percent memory_mb)).max_concurrent_tasks
      rw [hadj]; omega
    · show (ResourceScheduler.adjust_concurrency s
        (auto_scale_new_max s cpu_percent memory_mb)).max_concurrent_tasks ≤ 50
      rw [hadj]; omega
  · rename_i hne
    have heq : auto_scale_new_max s cpu_percent memory_mb
        = (s.max_concurrent_tasks : ℤ) := by
      by_contra hc
      exact hne hc
    refine ⟨?_, (decide_eq_false hne).symm, ?_, ?_⟩
    · show s.max_concurrent_tasks = _
      omega
    · show 2 ≤ s.max_concurrent_tasks
      omega
    · show s.max_concurrent_tasks ≤ 50
      omega

/-! ### C4: TTL expiry in the optimizer is keyed on last access, not age -/

theorem lookup_filter_of_pred_false {β : Type} {l : List (String × β)} {k : String}
    {b : β} (p : String × β → Bool)
    (hnd : (l.map Prod.fst).Nodup) (h : l.lookup k = some b) (hp : p (k, b) = false) :
    (l.filter p).lookup k = none := by
  induction l with
  | nil => exact Option.noConfusion h
  | cons q rest ih =>
    obtain ⟨k1, b1⟩ := q
    simp only [List.map_cons, List.nodup_cons] at hnd
    simp only [List.lookup] at h
    rcases hk : (k == k1) with _ | _
    · rw [hk] at h
      rcases hp1 : p (k1, b1) with _ | _
      · simp only [List.filter_cons, hp1, Bool.false_eq_true, if_false]
        exact ih hnd.2 h
      · simp only [List.filter_cons, hp1, if_true, List.lookup, hk]
        exact ih hnd.2 h
    · rw [hk] at h
      obtain rfl : b1 = b := Option.some_injective _ h
      obtain rfl : k = k1 := beq_iff_eq.mp hk
      simp only [List.filter_cons, hp, Bool.false_eq_true, if_false]
      apply lookup_eq_none_of_not_mem
      intro hmem
      simp only [List.mem_map] at hmem
      obtain ⟨pr, hpr, hfst⟩ := hmem
      exact hnd.1 (hfst ▸ List.mem_map_of_mem Prod.fst (List.mem_of_mem_filter hpr))

/-- C4 (amended): an entry whose idle time exceeds its TTL
(`now - last_accessed > ttl`, the criterion `should_evict` actually applies)
is removed by the expired-eviction step of the cleanup cycle, after which a
`get` for its key reports it absent. -/
theorem C4_idle_expired_entry_absent_after_pass (c : CacheOptimizer) (key : String)
    (e : CacheEntry) (now now2 : ℚ)
    (hnd : (c.cache_data.map Prod.fst).Nodup)
    (hl : c.cache_data.lookup key = some e)
    (hexp : now - e.last_accessed > e.ttl) :
    ((c.evict_expired now).get key now2).1 = none := by
  have hse : AdaptiveTTLStrategy.should_evict e now = true := by
    simp [AdaptiveTTLStrategy.should_evict, hexp]
  have hnone : ((c.evict_expired now).cache_data).lookup key = none := by
    simp only [CacheOptimizer.evict_expired]
    exact lookup_filter_of_pred_false _ hnd hl (by simp [hse])
  simp [CacheOptimizer.get, hnone]

/-- C4 witness: a concrete idle-expired entry is absent after the pass. -/
theorem C4_witness :
    ((c4w_state.cache_data.map Prod.fst).Nodup) ∧
    (c4w_state.cache_data.lookup "k" = some c4w_entry) ∧
    ((100 : ℚ) - c4w_entry.last_accessed > c4w_entry.ttl) ∧
    ((c4w_state.evict_expired 100).get "k" 100).1 = none :=
  ⟨by decide, by decide, by norm_num [c4w_entry],
   C4_idle_expired_entry_absent_after_pass c4w_state "k" c4w_entry 100 100
     (by decide) (by decide) (by norm_num [c4w_entry])⟩

/-- C4 counterexample: the entry was created at 0 with TTL 10, so at time 100
its age (100) exceeds its TTL, yet — because a `get` at 95 refreshed
`last_accessed` and `should_evict` measures idle time, not age — the
maintenance pass keeps it and a subsequent `get` still returns the value. -/
theorem C4_counterexample :
    c4_after_get.cache_data.lookup "k" = some c4_entry ∧
    (100 : ℚ) - c4_entry.created_at > c4_entry.ttl ∧
    ((c4_after_get.evict_expired 100).get "k" 100).1 = some "v" := by
  have hdata : c4_after_get.cache_data = [("k", c4_entry)] := by decide
  have hse : AdaptiveTTLStrategy.should_evict c4_entry 100 = false := by
    simp only [AdaptiveTTLStrategy.should_evict, decide_eq_false_iff_not, not_lt, c4_entry]
    norm_num
  refine ⟨by decide, by norm_num [c4_entry], ?_⟩
  have hkeep : (c4_after_get.evict_expired 100).cache_data = [("k", c4_entry)] := by
    simp [CacheOptimizer.evict_expired, hdata, List.filter_cons, hse]
  simp [CacheOptimizer.get, hkeep, c4_entry]

/-! ### C5: the TTL range is preserved by adaptation but not enforced by set -/

theorem any_key_iff {β : Type} (l : List (String × β)) (k : String) :
    l.any (fun p => p.1 == k) = true ↔ k ∈ l.map Prod.fst := by
  simp only [List.any_eq_true, List.mem_map, beq_iff_eq]

theorem lookup_map_replace {β : Type} (l : List (String × β)) (k : String) (b : β)
    (h : k ∈ l.map Prod.fst) :
    (l.map (fun p => if p.1 == k then (p.1, b) else p)).lookup k = some b := by
  induction l with
  | nil => simp at h
  | cons q rest ih =>
    obtain ⟨k1, b1⟩ := q
    simp only [List.map_cons]
    rcases hk : (k1 == k) with _ | _
    · simp only [hk, Bool.false_eq_true, if_false, List.lookup]
      rw [show (k == k1) = false from
        beq_eq_false_iff_ne.mpr fun hh => (beq_eq_false_iff_ne.mp hk) hh.symm]
      apply ih
      simp only [List.map_cons, List.mem_cons] at h
      rcases h with h | h
      · exact absurd (beq_iff_eq.mpr h.symm) (by simp [hk])
      · exact h
    · simp only [hk, if_true, List.lookup]
      rw [show (k == k1) = true from beq_iff_eq.mpr (beq_iff_eq.mp hk).symm]

theorem lookup_append_self {β : Type} (l : List (String × β)) (k : String) (b : β)
    (h : k ∉ l.map Prod.fst) :
    (l ++ [(k, b)]).lookup k = some b := by
  induction l with
  | nil => simp [List.lookup]
  | cons q rest ih =>
    simp only [List.map_cons, List.mem_cons, not_or] at h
    simp only [List.cons_append, List.lookup]
    rw [show (k == q.1) = false from beq_eq_false_iff_ne.mpr h.1]
    exact ih h.2

/-- What `CacheOptimizer.set` stores under the key when the store is below
`max_size` (so the LRU pass does not fire): the freshly built entry, its TTL
doubled when the key is currently hot. -/
theorem set_stored_lookup (c : CacheOptimizer) (key value : String) (ttl : Option ℚ)
    (now : ℚ) (hsize : c.cache_data.length < c.max_size) :
    ((c.set key value ttl now).cache_data).lookup key =
      some (if c.hotspot_detector.is_hotspot key
        then { mkCacheEntry key value now now (pyOrTTL ttl) with
                 ttl := (mkCacheEntry key value now now (pyOrTTL ttl)).ttl * 2 }
        else mkCacheEntry key value now now (pyOrTTL ttl)) := by
  simp only [CacheOptimizer.set]
  by_cases hmem : key ∈ c.cache_data.map Prod.fst
  · have hany : (c.cache_data.any fun p => p.1 == key) = true := (any_key_iff _ _).mpr hmem
    simp only [hany, if_true, List.length_map]
    rw [if_neg (by omega)]
    exact lookup_map_replace _ _ _ hmem
  · have hany : (c.cache_data.any fun p => p.1 == key) = false := by
      rcases hh : (c.cache_data.any fun p => p.1 == key) with _ | _
      · rfl
      · exact absurd ((any_key_iff _ _).mp hh) hmem
    simp only [hany, Bool.false_eq_true, if_false, List.length_append, List.length_cons,
      List.length_nil]
    rw [if_neg (by omega)]
    exact lookup_append_self _ _ _ hmem

/-- C5 (amended): the adaptive interval-based adjustment in
`calculate_priority` keeps a TTL that is already inside `[min_ttl, max_ttl]`
inside that range, and a `set` with the default TTL stores 300 (cold) or 600
(hot), both inside the default `[60, 3600]` range — but `set` itself performs
no clamping, so a caller-provided TTL may leave the range (see the
counterexample). -/
theorem C5_ttl_range (st : AdaptiveTTLStrategy) (e : CacheEntry) (now : ℚ)
    (c : CacheOptimizer) (key value : String) (now2 : ℚ) (e2 : CacheEntry)
    (h0 : 0 ≤ st.min_ttl) (h1 : st.min_ttl ≤ st.max_ttl)
    (h2 : st.min_ttl ≤ e.ttl) (h3 : e.ttl ≤ st.max_ttl)
    (hsize : c.cache_data.length < c.max_size)
    (hl : ((c.set key value none now2).cache_data).lookup key = some e2) :
    (st.min_ttl ≤ ((st.calculate_priority e now).1).ttl ∧
      ((st.calculate_priority e now).1).ttl ≤ st.max_ttl) ∧
    (e2.ttl = 300 ∨ e2.ttl = 600) := by
  constructor
  · have httl0 : 0 ≤ e.ttl := le_trans h0 h2
    simp only [AdaptiveTTLStrategy.calculate_priority]
    split
    · split
      · constructor
        · exact le_min h1 (by linarith)
        · exact min_le_left _ _
      · split
        · constructor
          · exact le_max_left _ _
          · exact max_le h1 (by linarith)
        · exact ⟨h2, h3⟩
    · exact ⟨h2, h3⟩
  · rw [set_stored_lookup c key value none now2 hsize] at hl
    have he2 := Option.some_injective _ hl.symm
    rw [he2]
    by_cases hh : c.hotspot_detector.is_hotspot key = true
    · right
      simp only [hh, if_true]
      show (mkCacheEntry key value now2 now2 (pyOrTTL none)).ttl * 2 = 600
      norm_num [mkCacheEntry, pyOrTTL]
    · left
      simp only [Bool.not_eq_true] at hh
      simp only [hh, Bool.false_eq_true, if_false]
      rfl

/-- C5 witness: with the default strategy and an in-range entry, the
adjustment stays in range and a default `set` stores TTL 300. -/
theorem C5_witness :
    (0 : ℚ) ≤ ({} : AdaptiveTTLStrategy).min_ttl ∧
    ({} : AdaptiveTTLStrategy).min_ttl ≤ ({} : AdaptiveTTLStrategy).max_ttl ∧
    ({} : AdaptiveTTLStrategy).min_ttl ≤ c5w_entry.ttl ∧
    c5w_entry.ttl ≤ ({} : AdaptiveTTLStrategy).max_ttl ∧
    ({} : CacheOptimizer).cache_data.length < ({} : CacheOptimizer).max_size ∧
    ((({} : CacheOptimizer).set "k" "v" none 0).cache_data).lookup "k" = some c5w_entry ∧
    ((({} : AdaptiveTTLStrategy).min_ttl ≤
        ((({} : AdaptiveTTLStrategy).calculate_priority c5w_entry 0).1).ttl ∧
      ((({} : AdaptiveTTLStrategy).calculate_priority c5w_entry 0).1).ttl ≤
        ({} : AdaptiveTTLStrategy).max_ttl) ∧
      (c5w_entry.ttl = 300 ∨ c5w_entry.ttl = 600)) :=
  ⟨by decide, by decide, by decide, by decide, by decide, by decide,
   C5_ttl_range {} c5w_entry 0 {} "k" "v" 0 c5w_entry
     (by decide) (by decide) (by decide) (by decide) (by decide) (by decide)⟩

/-- C5 counterexample: `set("k", "v", ttl=5000)` stores TTL 5000 verbatim,
above the strategy's `max_ttl` of 3600 — the claimed clamping invariant does
not hold at write time. -/
theorem C5_counterexample :
    c5_state.cache_data.lookup "k" = some c5_entry ∧
    c5_state.strategy.max_ttl < c5_entry.ttl := by
  exact ⟨by decide, by decide⟩

/-! ### C8: hotspot classification counts only the recent 30% window -/

theorem lookup_append {β : Type} (l1 l2 : List (String × β)) (k : String) :
    (l1 ++ l2).lookup k =
      match l1.lookup k with
      | some b => some b
      | none => l2.lookup k := by
  induction l1 with
  | nil => rfl
  | cons q rest ih =>
    obtain ⟨k1, b1⟩ := q
    simp only [List.cons_append, List.lookup]
    rcases hk : (k == k1) with _ | _
    · exact ih
    · rfl

theorem lookup_map_addv (l : List (String × ℤ)) (k2 : String) (v : ℤ) (k : String) :
    ((l.map (fun p => if p.1 == k2 then (p.1, p.2 + v) else p)).lookup k) =
      (l.lookup k).map (fun x => if k = k2 then x + v else x) := by
  induction l with
  | nil => rfl
  | cons q rest ih =>
    obtain ⟨k1, b1⟩ := q
    simp only [List.map_cons]
    by_cases h1 : k1 = k2
    · subst h1
      simp only [beq_self_eq_true, if_true]
      by_cases h2 : k = k1
      · subst h2
        simp [List.lookup]
      · have hb : (k == k1) = false := beq_eq_false_iff_ne.mpr h2
        simp only [List.lookup, hb]
        exact ih
    · have hb1 : (k1 == k2) = false := beq_eq_false_iff_ne.mpr h1
      simp only [hb1, Bool.false_eq_true, if_false]
      by_cases h2 : k = k1
      · subst h2
        simp only [List.lookup, beq_self_eq_true]
        simp [h1]
      · have hb : (k == k1) = false := beq_eq_false_iff_ne.mpr h2
        simp only [List.lookup, hb]
        exact ih

theorem assocAdd_lookup_getD (l : List (String × ℤ)) (k2 k : String) (v : ℤ) :
    ((assocAdd l k2 v).lookup k).getD 0 =
      (l.lookup k).getD 0 + (if k = k2 then v else 0) := by
  simp only [assocAdd]
  split
  · rename_i hany
    rw [lookup_map_addv]
    by_cases h2 : k = k2
    · subst h2
      obtain ⟨b, hb⟩ := lookup_isSome_of_mem_keys ((any_key_iff l k).mp hany)
      rw [hb]
      simp
    · cases l.lookup k <;> simp [h2]
  · rename_i hany
    rw [lookup_append]
    by_cases h2 : k = k2
    · subst h2
      have hnone : l.lookup k = none := by
        apply lookup_eq_none_of_not_mem
        intro hmem
        exact hany ((any_key_iff l k).mpr hmem)
      rw [hnone]
      simp [List.lookup]
    · cases hl : l.lookup k
      · simp only [List.lookup, show (k == k2) = false from beq_eq_false_iff_ne.mpr h2]
        simp [h2]
      · simp [h2]

theorem map_fst_map_addv (l : List (String × ℤ)) (k2 : String) (v : ℤ) :
    (l.map (fun p => if p.1 == k2 then (p.1, p.2 + v) else p)).map Prod.fst
      = l.map Prod.fst := by
  rw [List.map_map]
  apply List.map_congr_left
  intro p _
  by_cases hp : p.1 = k2
  · simp [hp]
  · simp [hp]

theorem assocAdd_keys_mem (l : List (String × ℤ)) (k2 : String) (v : ℤ) (k : String) :
    (k ∈ (assocAdd l k2 v).map Prod.fst) ↔ (k ∈ l.map Prod.fst ∨ k = k2) := by
  simp only [assocAdd]
  split
  · rename_i hany
    have hmem2 : k2 ∈ l.map Prod.fst := (any_key_iff _ _).mp hany
    rw [map_fst_map_addv]
    constructor
    · exact Or.inl
    · rintro (h | rfl)
      · exact h
      · exact hmem2
  · simp [List.map_append]

theorem assocAdd_keys_nodup (l : List (String × ℤ)) (k2 : String) (v : ℤ)
    (h : (l.map Prod.fst).Nodup) : ((assocAdd l k2 v).map Prod.fst).Nodup := by
  simp only [assocAdd]
  split
  · rw [map_fst_map_addv]
    exact h
  · rename_i hany
    simp only [List.map_append, List.map_cons, List.map_nil]
    apply List.Nodup.append h (List.nodup_singleton k2)
    intro a ha hb
    simp only [List.mem_singleton] at hb
    subst hb
    exact hany ((any_key_iff _ _).mpr ha)

theorem foldl_assocAdd_lookup (keys : List String) (acc : List (String × ℤ)) (k : String) :
    (((keys.foldl (fun a k2 => assocAdd a k2 1) acc).lookup k).getD 0) =
      (acc.lookup k).getD 0 + (keys.count k : ℤ) := by
  induction keys generalizing acc with
  | nil => simp
  | cons k2 rest ih =>
    simp only [List.foldl_cons]
    rw [ih, assocAdd_lookup_getD, List.count_cons]
    by_cases h : k = k2
    · subst h
      simp only [beq_self_eq_true, if_true, if_pos rfl]
      push_cast
      ring
    · have hb : (k2 == k) = false := beq_eq_false_iff_ne.mpr (Ne.symm h)
      simp only [hb, Bool.false_eq_true, if_false, if_neg h]
      push_cast
      ring

theorem foldl_assocAdd_mem (keys : List String) (acc : List (String × ℤ)) (k : String) :
    (k ∈ (keys.foldl (fun a k2 => assocAdd a k2 1) acc).map Prod.fst) ↔
      (k ∈ acc.map Prod.fst ∨ k ∈ keys) := by
  induction keys generalizing acc with
  | nil => simp
  | cons k2 rest ih =>
    simp only [List.foldl_cons]
    rw [ih, assocAdd_keys_mem]
    simp only [List.mem_cons]
    tauto

theorem foldl_assocAdd_nodup (keys : List String) (acc : List (String × ℤ))
    (h : (acc.map Prod.fst).Nodup) :
    ((keys.foldl (fun a k2 => assocAdd a k2 1) acc).map Prod.fst).Nodup := by
  induction keys generalizing acc with
  | nil => exact h
  | cons k2 rest ih => exact ih _ (assocAdd_keys_nodup _ _ _ h)

theorem lookup_of_mem_nodup {β : Type} {l : List (String × β)} {k : String} {b : β}
    (hnd : (l.map Prod.fst).Nodup) (h : (k, b) ∈ l) : l.lookup k = some b := by
  induction l with
  | nil => simp at h
  | cons q rest ih =>
    obtain ⟨k1, b1⟩ := q
    simp only [List.map_cons, List.nodup_cons] at hnd
    rcases List.mem_cons.mp h with heq | hmem
    · have hk : k = k1 := congrArg Prod.fst heq
      have hb : b = b1 := congrArg Prod.snd heq
      subst hk
      subst hb
      simp [List.lookup]
    · have hk : k ≠ k1 := by
        intro hkk
        apply hnd.1
        rw [← hkk]
        exact List.mem_map_of_mem Prod.fst hmem
      simp only [List.lookup, beq_eq_false_iff_ne.mpr hk]
      exact ih hnd.2 hmem

theorem hotspot_mem_iff (keys : List String) (θ : ℕ) (k : String) (hθ : 1 ≤ θ) :
    (k ∈ ((keys.foldl (fun acc k2 => assocAdd acc k2 1) []).filter
        (fun p => (θ : ℤ) ≤ p.2)).map Prod.fst) ↔ θ ≤ keys.count k := by
  have hnd : ((keys.foldl (fun a k2 => assocAdd a k2 1)
      ([] : List (String × ℤ))).map Prod.fst).Nodup :=
    foldl_assocAdd_nodup keys [] (by simp)
  constructor
  · intro hmem
    simp only [List.mem_map] at hmem
    obtain ⟨⟨k1, v⟩, hpr, hfst⟩ := hmem
    have hfst2 : k1 = k := hfst
    have hfil := List.mem_filter.mp hpr
    have hlook := lookup_of_mem_nodup hnd hfil.1
    have hv : v = (keys.count k1 : ℤ) := by
      have hc := foldl_assocAdd_lookup keys [] k1
      rw [hlook] at hc
      simpa using hc
    have hle : (θ : ℤ) ≤ v := by simpa using hfil.2
    rw [hv] at hle
    rw [← hfst2]
    exact_mod_cast hle
  · intro hcount
    have hpos : 0 < keys.count k := lt_of_lt_of_le hθ hcount
    have hmemk : k ∈ keys := by
      by_contra hno
      rw [List.count_eq_zero_of_not_mem hno] at hpos
      exact Nat.lt_irrefl 0 hpos
    have hmem2 := (foldl_assocAdd_mem keys [] k).mpr (Or.inr hmemk)
    obtain ⟨v, hv⟩ := lookup_isSome_of_mem_keys hmem2
    have hveq : v = (keys.count k : ℤ) := by
      have hc := foldl_assocAdd_lookup keys [] k
      rw [hv] at hc
      simpa using hc
    refine List.mem_map.mpr ⟨(k, v), ?_, rfl⟩
    apply List.mem_filter.mpr
    refine ⟨mem_of_lookup hv, ?_⟩
    simp only [decide_eq_true_eq]
    rw [hveq]
    exact_mod_cast hcount

theorem update_hotspots_access_log (d : HotspotDetector) :
    d.update_hotspots.access_log = d.access_log := by
  simp only [HotspotDetector.update_hotspots]
  split <;> rfl

theorem update_hotspots_window_size (d : HotspotDetector) :
    d.update_hotspots.window_size = d.window_size := by
  simp only [HotspotDetector.update_hotspots]
  split <;> rfl

theorem update_hotspots_recent_window (d : HotspotDetector) :
    d.update_hotspots.recent_window = d.recent_window := by
  simp only [HotspotDetector.recent_window, update_hotspots_window_size]

theorem update_hotspots_recent_keys (d : HotspotDetector) :
    d.update_hotspots.recent_keys = d.recent_keys := by
  simp only [HotspotDetector.recent_keys, update_hotspots_recent_window,
    update_hotspots_access_log]

theorem update_hotspots_spec (d : HotspotDetector) (k : String)
    (hθ : 1 ≤ d.hotspot_threshold)
    (hlen : d.recent_window ≤ d.access_log.length) :
    (d.update_hotspots.is_hotspot k = true ↔
      d.hotspot_threshold ≤ d.recent_keys.count k) := by
  simp only [HotspotDetector.update_hotspots, if_pos hlen, HotspotDetector.is_hotspot]
  constructor
  · intro h
    exact (hotspot_mem_iff _ _ _ hθ).mp (List.mem_of_elem_eq_true h)
  · intro h
    exact List.elem_eq_true_of_mem ((hotspot_mem_iff _ _ _ hθ).mpr h)

/-- C8 (amended): once the log holds at least `int(window_size·0.3)` events
after an access, a key is classified hot exactly when its count among the
most recent `int(window_size·0.3)` accesses reaches the threshold; only that
recent slice is counted, so in the Scenario-D configuration (window 10,
threshold 5, where the slice holds 3 events) no key can be classified hot. -/
theorem C8_hot_iff_recent_count (d : HotspotDetector) (key k : String) (ts : ℚ)
    (hθ : 1 ≤ d.hotspot_threshold)
    (hlen : (d.record_access key ts).recent_window
        ≤ (d.record_access key ts).access_log.length) :
    ((d.record_access key ts).is_hotspot k = true ↔
      d.hotspot_threshold ≤ (d.record_access key ts).recent_keys.count k) := by
  have hlen2 : (d.record_access_pre key ts).recent_window
      ≤ (d.record_access_pre key ts).access_log.length := by
    rw [HotspotDetector.record_access, update_hotspots_recent_window,
      update_hotspots_access_log] at hlen
    exact hlen
  have hθ2 : 1 ≤ (d.record_access_pre key ts).hotspot_threshold := hθ
  have hspec := update_hotspots_spec (d.record_access_pre key ts) k hθ2 hlen2
  rw [HotspotDetector.record_access, update_hotspots_recent_keys]
  exact hspec

/-- C8 witness: with threshold 1, the third access of `h` classifies it hot
exactly as the recent-window count predicts. -/
theorem C8_witness :
    1 ≤ c8_w2.hotspot_threshold ∧
    (c8_w2.record_access "h" 2).recent_window
      ≤ (c8_w2.record_access "h" 2).access_log.length ∧
    ((c8_w2.record_access "h" 2).is_hotspot "h" = true ↔
      c8_w2.hotspot_threshold ≤ (c8_w2.record_access "h" 2).recent_keys.count "h") :=
  ⟨by decide, by decide, C8_hot_iff_recent_count c8_w2 "h" "h" 2 (by decide) (by decide)⟩

/-- C8 counterexample: with window 10 and threshold 5, key `h` accessed 6
times inside the 10-access window is NOT classified hot (the recomputation
counts only the most recent `int(10·0.3) = 3` accesses, and 3 < 5), contrary
to Scenario D; the untouched `k2` is not hot either. -/
theorem C8_counterexample :
    c8_d6.window_size = 10 ∧ c8_d6.hotspot_threshold = 5 ∧
    (c8_d6.access_log.map Prod.fst).count "h" = 6 ∧
    c8_d6.is_hotspot "h" = false ∧ c8_d6.is_hotspot "k2" = false := by
  decide

/-! ### C9: the LocalCache bookkeeping invariant -/

theorem map_fst_filter_ne {β : Type} (l : List (String × β)) (k : String) :
    (l.filter (fun p => p.1 != k)).map Prod.fst
      = (l.map Prod.fst).filter (fun s => s != k) := by
  induction l with
  | nil => rfl
  | cons q rest ih =>
    obtain ⟨k1, b1⟩ := q
    simp only [List.filter_cons, List.map_cons]
    rcases h1 : (k1 != k) with _ | _
    · simp only [h1, Bool.false_eq_true, if_false]
      exact ih
    · simp only [h1, if_true, List.map_cons]
      rw [ih]

theorem filter_ne_of_not_mem {β : Type} (l : List (String × β)) (k : String)
    (h : k ∉ l.map Prod.fst) : l.filter (fun p => p.1 != k) = l := by
  induction l with
  | nil => rfl
  | cons q rest ih =>
    obtain ⟨k1, b1⟩ := q
    simp only [List.map_cons, List.mem_cons, not_or] at h
    have h1 : (k1 != k) = true := bne_iff_ne.mpr (fun hh => h.1 hh.symm)
    simp only [List.filter_cons, h1, if_true]
    rw [ih h.2]

theorem sum_filter_ne (l : List (String × CacheMetadata)) (k : String)
    (m : CacheMetadata) (hnd : (l.map Prod.fst).Nodup) (hl : l.lookup k = some m) :
    ((l.filter (fun p => p.1 != k)).map (fun p => (p.2.size : ℤ))).sum
      = ((l.map (fun p => (p.2.size : ℤ))).sum) - (m.size : ℤ) := by
  induction l with
  | nil => exact Option.noConfusion hl
  | cons q rest ih =>
    obtain ⟨k1, m1⟩ := q
    simp only [List.map_cons, List.nodup_cons] at hnd
    simp only [List.lookup] at hl
    rcases hk : (k == k1) with _ | _
    · rw [hk] at hl
      have h1 : (k1 != k) = true := by
        apply bne_iff_ne.mpr
        intro hh
        exact absurd (beq_iff_eq.mpr hh.symm) (by simp [hk])
      simp only [List.filter_cons, h1, if_true, List.map_cons, List.sum_cons]
      rw [ih hnd.2 hl]
      ring
    · rw [hk] at hl
      obtain rfl : m1 = m := Option.some_injective _ hl
      obtain rfl : k = k1 := beq_iff_eq.mp hk
      simp only [List.filter_cons, bne_self_eq_false, Bool.false_eq_true, if_false,
        List.map_cons, List.sum_cons]
      rw [filter_ne_of_not_mem rest k hnd.1]
      ring

/-- Characterization of `_remove_key` on a state satisfying the invariant:
both maps lose exactly the key and the invariant is preserved. -/
theorem remove_key_spec (c : LocalCache) (k : String) (hinv : c.inv) :
    (c.remove_key k).data = c.data.filter (fun p => p.1 != k) ∧
    (c.remove_key k).metadata = c.metadata.filter (fun p => p.1 != k) ∧
    (c.remove_key k).inv := by
  obtain ⟨hkeys, hnd, hsum⟩ := hinv
  by_cases hmem : k ∈ c.data.map Prod.fst
  · have hany : (c.data.any fun p => p.1 == k) = true := (any_key_iff _ _).mpr hmem
    have hmem2 : k ∈ c.metadata.map Prod.fst := hkeys ▸ hmem
    obtain ⟨m, hm⟩ := lookup_isSome_of_mem_keys hmem2
    simp only [LocalCache.remove_key, hany, if_true, hm]
    refine ⟨by trivial, by trivial, ?_, ?_, ?_⟩
    · rw [map_fst_filter_ne, map_fst_filter_ne, hkeys]
    · rw [map_fst_filter_ne]
      exact hnd.filter _
    · rw [sum_filter_ne c.metadata k m hnd hm, hsum]
  · have hany : (c.data.any fun p => p.1 == k) = false := by
      rcases hh : (c.data.any fun p => p.1 == k) with _ | _
      · rfl
      · exact absurd ((any_key_iff _ _).mp hh) hmem
    have hmem2 : k ∉ c.metadata.map Prod.fst := hkeys ▸ hmem
    simp only [LocalCache.remove_key, hany, Bool.false_eq_true, if_false]
    rw [filter_ne_of_not_mem _ _ hmem, filter_ne_of_not_mem _ _ hmem2]
    exact ⟨rfl, rfl, hkeys, hnd, hsum⟩

theorem evict_loop_spec (size fuel : ℕ) (c : LocalCache) (hinv : c.inv) :
    (c.evict_for_space size fuel).inv ∧
    (∀ x, x ∈ (c.evict_for_space size fuel).data.map Prod.fst →
      x ∈ c.data.map Prod.fst) := by
  induction fuel generalizing c with
  | zero => exact ⟨hinv, fun x hx => hx⟩
  | succ fuel ih =>
    simp only [LocalCache.evict_for_space]
    split
    · split
      · rename_i k hk
        obtain ⟨hdata, hmeta, hinv2⟩ := remove_key_spec c k hinv
        obtain ⟨ha, hb⟩ := ih (c.remove_key k) hinv2
        refine ⟨ha, fun x hx => ?_⟩
        have hx2 := hb x hx
        rw [hdata, map_fst_filter_ne] at hx2
        exact List.mem_of_mem_filter hx2
      · exact ⟨hinv, fun x hx => hx⟩
    · exact ⟨hinv, fun x hx => hx⟩

theorem append_entry_inv (c2 : LocalCache) (key value : String) (meta : CacheMetadata)
    (hinv : c2.inv) (hnot : key ∉ c2.data.map Prod.fst) :
    (LocalCache.mk c2.max_size_bytes c2.default_ttl (c2.data ++ [(key, value)])
      (c2.metadata ++ [(key, meta)]) (c2.total_size + meta.size)).inv := by
  obtain ⟨hk, hnd, hs⟩ := hinv
  have hnotm : key ∉ c2.metadata.map Prod.fst := by
    rw [← hk]
    exact hnot
  refine ⟨?_, ?_, ?_⟩
  · simp only [List.map_append, List.map_cons, List.map_nil, hk]
  · simp only [List.map_append, List.map_cons, List.map_nil]
    apply List.Nodup.append hnd (List.nodup_singleton key)
    intro a ha hb
    simp only [List.mem_singleton] at hb
    subst hb
    exact hnotm ha
  · simp only [List.map_append, List.sum_append, List.map_cons, List.map_nil,
      List.sum_cons, List.sum_nil, hs]
    ring

theorem set_pre_inv (c : LocalCache) (key : String) (hinv : c.inv) :
    (if c.data.any (fun p => p.1 == key) then c.remove_key key else c).inv ∧
    key ∉ (if c.data.any (fun p => p.1 == key) then c.remove_key key
      else c).data.map Prod.fst := by
  by_cases hmem : key ∈ c.data.map Prod.fst
  · have hany : (c.data.any fun p => p.1 == key) = true := (any_key_iff _ _).mpr hmem
    rw [if_pos hany]
    obtain ⟨hdata, _, hinv2⟩ := remove_key_spec c key hinv
    refine ⟨hinv2, ?_⟩
    rw [hdata, map_fst_filter_ne]
    intro hx
    have hcond := List.of_mem_filter hx
    simp at hcond
  · have hany : (c.data.any fun p => p.1 == key) = false := by
      rcases hh : (c.data.any fun p => p.1 == key) with _ | _
      · rfl
      · exact absurd ((any_key_iff _ _).mp hh) hmem
    rw [if_neg (by simp [hany])]
    exact ⟨hinv, hmem⟩

theorem set_inv (sz : String → ℕ) (c : LocalCache) (key value : String)
    (ttl : Option ℤ) (tags : List String) (now : ℚ) (hinv : c.inv) :
    (c.set sz key value ttl tags now).inv := by
  obtain ⟨hinv1, hnot1⟩ := set_pre_inv c key hinv
  obtain ⟨hinv2, hsub2⟩ := evict_loop_spec (sz value)
    ((if c.data.any (fun p => p.1 == key) then c.remove_key key else c).data.length)
    (if c.data.any (fun p => p.1 == key) then c.remove_key key else c) hinv1
  exact append_entry_inv _ key value _ hinv2 (fun hx => hnot1 (hsub2 key hx))

theorem map_fst_replace {β : Type} (l : List (String × β)) (k : String) (f : β → β) :
    (l.map (fun p => if p.1 == k then (p.1, f p.2) else p)).map Prod.fst
      = l.map Prod.fst := by
  rw [List.map_map]
  apply List.map_congr_left
  intro p _
  by_cases hp : p.1 = k
  · simp [hp]
  · simp [hp]

theorem sum_map_replace_size (l : List (String × CacheMetadata)) (k : String)
    (f : CacheMetadata → CacheMetadata) (hf : ∀ m, (f m).size = m.size) :
    ((l.map (fun p => if p.1 == k then (p.1, f p.2) else p)).map
        (fun p => (p.2.size : ℤ))).sum
      = (l.map (fun p => (p.2.size : ℤ))).sum := by
  induction l with
  | nil => rfl
  | cons q rest ih =>
    obtain ⟨k1, b1⟩ := q
    simp only [List.map_cons, List.sum_cons]
    by_cases hp : k1 = k
    · simp only [show (k1 == k) = true from beq_iff_eq.mpr hp, if_true, hf, ih]
    · simp only [show (k1 == k) = false from beq_eq_false_iff_ne.mpr hp,
        Bool.false_eq_true, if_false, ih]

theorem get_inv (c : LocalCache) (key : String) (now : ℚ) (hinv : c.inv) :
    ((c.get key now).2).inv := by
  simp only [LocalCache.get]
  split
  · exact hinv
  · split
    · exact hinv
    · split
      · exact (remove_key_spec c key hinv).2.2
      · obtain ⟨hk, hnd, hs⟩ := hinv
        have hmf := map_fst_replace c.metadata key
          (fun m => { m with accessed_at := now, access_count := m.access_count + 1 })
        have hms := sum_map_replace_size c.metadata key
          (fun m => { m with accessed_at := now, access_count := m.access_count + 1 })
          (fun m => rfl)
        dsimp only
        refine ⟨?_, ?_, ?_⟩
        · rw [hmf, hk]
        · rw [hmf]
          exact hnd
        · rw [hms, hs]

theorem foldl_remove_spec (ks : List String) (c : LocalCache) (hinv : c.inv) :
    (ks.foldl (fun acc k => acc.remove_key k) c).data
        = c.data.filter (fun p => ! ks.contains p.1) ∧
    (ks.foldl (fun acc k => acc.remove_key k) c).metadata
        = c.metadata.filter (fun p => ! ks.contains p.1) ∧
    (ks.foldl (fun acc k => acc.remove_key k) c).inv := by
  induction ks generalizing c with
  | nil =>
    refine ⟨?_, ?_, hinv⟩
    · exact (List.filter_eq_self.mpr (fun p _ => by simp [List.contains, List.elem])).symm
    · exact (List.filter_eq_self.mpr (fun p _ => by simp [List.contains, List.elem])).symm
  | cons k rest ih =>
    obtain ⟨hd, hm, hi⟩ := remove_key_spec c k hinv
    obtain ⟨ihd, ihm, ihi⟩ := ih (c.remove_key k) hi
    have hpt : ∀ {β : Type} (l : List (String × β)),
        (l.filter (fun p => p.1 != k)).filter (fun p => ! rest.contains p.1)
          = l.filter (fun p => ! (k :: rest).contains p.1) := by
      intro β l
      rw [List.filter_filter]
      apply List.filter_congr
      intro p _
      rcases hpk : (p.1 == k) with _ | _
      · simp [List.contains, List.elem, hpk, bne]
      · simp [List.contains, List.elem, hpk, bne]
    refine ⟨?_, ?_, ihi⟩
    · rw [List.foldl_cons, ihd, hd, hpt]
    · rw [List.foldl_cons, ihm, hm, hpt]

theorem step_inv (sz : String → ℕ) (c : LocalCache) (op : LCOp) (hinv : c.inv) :
    (LocalCache.step sz c op).inv := by
  cases op with
  | get key now => exact get_inv c key now hinv
  | set key value ttl tags now => exact set_inv sz c key value ttl tags now hinv
  | del key =>
    simp only [LocalCache.step, LocalCache.delete]
    split
    · exact (remove_key_spec c key hinv).2.2
    · exact hinv
  | delByTags tags =>
    exact (foldl_remove_spec (c.tagged_keys tags) c hinv).2.2
  | cleanup now =>
    simp only [LocalCache.step, LocalCache.cleanup]
    split
    · rename_i c2 heq
      split at heq
      · exact absurd heq (by simp)
      · cases heq
        exact (foldl_remove_spec _ c hinv).2.2
    · exact hinv

/-- C9: across every sequence of LocalCache operations (get, set, delete,
delete_by_tags and the cleanup pass — which, when over budget, raises before
mutating anything), `data` and `metadata` hold the same keys and `total_size`
equals the sum of the recorded sizes; in particular `set` removes an existing
entry (subtracting its size) before inserting, so sizes are never
double-counted. -/
theorem C9_bookkeeping_invariant (sz : String → ℕ) (c : LocalCache) (ops : List LCOp)
    (hinv : c.inv) : (c.runOps sz ops).inv := by
  induction ops generalizing c with
  | nil => exact hinv
  | cons op rest ih => exact ih _ (step_inv sz c op hinv)

/-- C9 witness: a concrete trace — including a `set` overwriting an existing
key, a cleanup pass and tag deletion — keeps the invariant. -/
theorem C9_witness :
    (LocalCache.init 1000000 3600).inv ∧
    ((LocalCache.init 1000000 3600).runOps strLen c9w_ops).inv :=
  ⟨⟨by decide, by decide, by decide⟩,
   C9_bookkeeping_invariant strLen (LocalCache.init 1000000 3600) c9w_ops
     ⟨by decide, by decide, by decide⟩⟩

/-! ### C6: tag deletion reaches only the Local tier -/

theorem key_inj_of_nodup {β : Type} {l : List (String × β)}
    (hnd : (l.map Prod.fst).Nodup) {p q : String × β}
    (hp : p ∈ l) (hq : q ∈ l) (hk : q.1 = p.1) : q = p := by
  have h1 : l.lookup q.1 = some q.2 := lookup_of_mem_nodup hnd hq
  have h2 : l.lookup p.1 = some p.2 := lookup_of_mem_nodup hnd hp
  rw [hk, h2] at h1
  have h3 : p.2 = q.2 := Option.some_injective _ h1
  obtain ⟨q1, q2⟩ := q
  obtain ⟨p1, p2⟩ := p
  simp only at hk h3
  rw [hk, h3]

theorem tagged_keys_mem_iff (lc : LocalCache) (tags : List String)
    (hnd : (lc.metadata.map Prod.fst).Nodup) (p : String × CacheMetadata)
    (hp : p ∈ lc.metadata) :
    (lc.tagged_keys tags).contains p.1 = tags.any (fun t => p.2.tags.contains t) := by
  rcases hq : tags.any (fun t => p.2.tags.contains t) with _ | _
  · rcases hc : (lc.tagged_keys tags).contains p.1 with _ | _
    · rfl
    · have hmem := List.mem_of_elem_eq_true hc
      simp only [LocalCache.tagged_keys, List.mem_map] at hmem
      obtain ⟨q, hqf, hqfst⟩ := hmem
      have hq2 := List.mem_filter.mp hqf
      have heq : q = p := key_inj_of_nodup hnd hp hq2.1 hqfst
      rw [heq] at hq2
      rw [hq] at hq2
      exact absurd hq2.2 (by simp)
  · have hpmem : p ∈ lc.metadata.filter (fun p2 => tags.any fun t => p2.2.tags.contains t) :=
      List.mem_filter.mpr ⟨hp, hq⟩
    have hmem : p.1 ∈ lc.tagged_keys tags := by
      simp only [LocalCache.tagged_keys]
      exact List.mem_map_of_mem Prod.fst hpmem
    exact List.elem_eq_true_of_mem hmem

theorem filter_keys_to_tags (lc : LocalCache) (tags : List String)
    (hnd : (lc.metadata.map Prod.fst).Nodup) :
    lc.metadata.filter (fun p => ! (lc.tagged_keys tags).contains p.1)
      = lc.metadata.filter (fun p => ! tags.any (fun t => p.2.tags.contains t)) := by
  apply List.filter_congr
  intro p hp
  rw [tagged_keys_mem_iff lc tags hnd p hp]

/-- C6 (amended): `delete_by_tags` removes exactly the tagged entries from
the Local tier, leaving untagged Local entries in place; the Redis tier is
only matched against the doubly-prefixed pattern
`capcut:cache:capcut:cache:*` (so ordinary keys are untouched), and the Disk
tier is not touched at all. -/
theorem C6_delete_by_tags_scope (c : IntelligentCache) (tags : List String)
    (hinv : c.local_cache.inv)
    (hr : ∀ p ∈ c.redis_store, globMatch (make_key "capcut:cache:*") p.1 = false) :
    ((c.delete_by_tags tags).2.local_cache.metadata
        = c.local_cache.metadata.filter
            (fun p => ! tags.any (fun t => p.2.tags.contains t))) ∧
    ((c.delete_by_tags tags).2.local_cache.data
        = c.local_cache.data.filter
            (fun p => ! (c.local_cache.tagged_keys tags).contains p.1)) ∧
    (c.delete_by_tags tags).2.redis_store = c.redis_store ∧
    (c.delete_by_tags tags).2.disk_store = c.disk_store := by
  have hloc := foldl_remove_spec (c.local_cache.tagged_keys tags) c.local_cache hinv
  refine ⟨?_, ?_, ?_, rfl⟩
  · show ((c.local_cache.tagged_keys tags).foldl
        (fun acc k => acc.remove_key k) c.local_cache).metadata = _
    rw [hloc.2.1, filter_keys_to_tags c.local_cache tags hinv.2.1]
  · show ((c.local_cache.tagged_keys tags).foldl
        (fun acc k => acc.remove_key k) c.local_cache).data = _
    exact hloc.1
  · show c.redis_store.filter
        (fun p => ! globMatch (make_key "capcut:cache:*") p.1) = c.redis_store
    apply List.filter_eq_self.mpr
    intro p hp
    simp [hr p hp]

/-- C6 witness: on the concrete two-entry store, tag deletion removes
exactly the tagged entry from the Local tier and leaves Redis and Disk
untouched. -/
theorem C6_witness :
    c6_ic.local_cache.inv ∧
    (∀ p ∈ c6_ic.redis_store, globMatch (make_key "capcut:cache:*") p.1 = false) ∧
    (((c6_ic.delete_by_tags ["t"]).2.local_cache.metadata
        = c6_ic.local_cache.metadata.filter
            (fun p => ! (["t"] : List String).any (fun t => p.2.tags.contains t))) ∧
      ((c6_ic.delete_by_tags ["t"]).2.local_cache.data
        = c6_ic.local_cache.data.filter
            (fun p => ! (c6_ic.local_cache.tagged_keys ["t"]).contains p.1)) ∧
      (c6_ic.delete_by_tags ["t"]).2.redis_store = c6_ic.redis_store ∧
      (c6_ic.delete_by_tags ["t"]).2.disk_store = c6_ic.disk_store) :=
  ⟨⟨by decide, by decide, by decide⟩, by decide,
   C6_delete_by_tags_scope c6_ic ["t"] ⟨by decide, by decide, by decide⟩ (by decide)⟩

/-- C6 counterexample: entry `a` carries tag `t`, yet after
`delete_by_tags(["t"])` it is still present in both the Redis tier (whose
deletion pattern is doubly prefixed and matches nothing) and the Disk tier
(whose tag deletion is `pass`); the claim that tagged entries are removed
from all tiers is false. -/
theorem C6_counterexample :
    (c6_ic.local_cache.metadata.lookup "a").map CacheMetadata.tags = some ["t"] ∧
    c6_result.redis_store.lookup (make_key "a") = some "va" ∧
    c6_result.disk_store.lookup "a" = some "da" := by
  decide

end CapCut
